import Mathlib

/-!
Verification of the metadata-resolution engine and generation scheduler of the
mikro-nest-forge DTO generator (TypeScript repository), via a shallow embedding
in Lean 4.

The embedding translates, from the TypeScript source:
  * `getAllPropertiesIncludingInherited`
    (src/packages/generator/src/utils/get-all-properties-including-inherited.ts)
  * `createEntityRegistry`, `resolveRelationEntityTypeWithRegistry`,
    `inferEntityTypeFromPropertyTypeWithRegistry` (entity-registry module)
  * `shouldExcludePropertyForOperation`
    (src/packages/generator/src/utils/extract-dto-options.ts)
  * `checkPropertyNullable`
    (src/packages/generator/src/utils/check-property-nullable.ts)
  * `extractEnumTypeFromDecorator` (extract-enum-type module)
  * the string-keyed memoization cache (cache-manager.ts, `getStringCache` /
    `setStringCache`)
  * the batch scheduler `generateDtosInParallel`
    (src/packages/generator/src/parallel-dto-generator.ts)

ts-morph AST values (class declarations, property declarations, decorators,
type nodes, types) are modelled as plain structures carrying exactly the
observations the translated code makes of them (names, texts, kinds, decorator
argument texts, union members, type arguments).  JavaScript regular-expression
matching over decorator/type text is modelled by explicit character-list
scanners that implement the same leftmost-match semantics as the concrete
regexes appearing in the source.
-/

namespace Mdg

/-- JavaScript `\s` whitespace class, restricted to the ASCII characters that
can occur in the decorator texts considered here (space, tab, line feed,
vertical tab, form feed, carriage return). -/
def isWsChar (c : Char) : Bool :=
  c == ' ' || c == '\t' || c == '\n' || c == '\x0b' || c == '\x0c' || c == '\r'

/-- JavaScript `\w` word-character class `[A-Za-z0-9_]`. -/
def isWordChar (c : Char) : Bool :=
  c.isAlphanum || c == '_'

/-- Character class `[A-Za-z_]` used as the leading character of the
identifier captures in the source's regexes. -/
def isIdentStart (c : Char) : Bool :=
  c.isAlpha || c == '_'

/-- Try to strip the literal character sequence `pat` from the front of `l`,
returning the remainder on success (the way a regex matches a literal). -/
def stripLit : List Char → List Char → Option (List Char)
  | [], l => some l
  | _ :: _, [] => none
  | p :: ps, c :: cs => if c == p then stripLit ps cs else none

/-- JavaScript `String.prototype.includes`: does `needle` occur as a
contiguous substring of `hay`? -/
def hasSubstr (hay needle : List Char) : Bool :=
  match hay with
  | [] => needle.isEmpty
  | _ :: cs => needle.isPrefixOf hay || hasSubstr cs needle

/-- JavaScript `String.prototype.trim`: drop whitespace from both ends. -/
def trimChars (l : List Char) : List Char :=
  ((l.dropWhile isWsChar).reverse.dropWhile isWsChar).reverse

/-- JavaScript `split(",")` on a character list: the list of comma-separated
pieces (always at least one piece, commas removed). -/
def splitComma : List Char → List (List Char)
  | [] => [[]]
  | c :: cs =>
    let r := splitComma cs
    if c == ',' then [] :: r
    else
      match r with
      | p :: rest => (c :: p) :: rest
      | [] => [[c]]

/-- JavaScript `split("|")` on a character list. -/
def splitPipe : List Char → List (List Char)
  | [] => [[]]
  | c :: cs =>
    let r := splitPipe cs
    if c == '|' then [] :: r
    else
      match r with
      | p :: rest => (c :: p) :: rest
      | [] => [[c]]

/-! ## Data model: ts-morph declaration values as observed by the source -/

/-- Observation of one type-argument node: the source only ever asks a type
argument for its symbol's name (`argType.getSymbol()?.getName()`). -/
structure TyArg where
  symbol : Option String
  deriving DecidableEq, Repr

/-- Observation of a single (non-union-member or union-member) type: symbol
name, rendered text, type arguments, and the null/undefined flags that
`isNull()` / `isUndefined()` report. -/
structure TyCore where
  symbol : Option String
  text : String
  args : List TyArg
  isNull : Bool
  isUndef : Bool
  deriving DecidableEq, Repr

/-- Observation of a property's declared type.  `union = []` models a
non-union type (`isUnion()` false); otherwise `union` lists the union's
members in order (TypeScript keeps unions flat, so members are `TyCore`). -/
structure Ty where
  core : TyCore
  union : List TyCore
  deriving DecidableEq, Repr

/-- One property of an object-literal decorator argument, as observed by
`checkPropertyNullable` (kind name, property name, initializer text). -/
structure ObjProp where
  kindName : String
  name : String
  initializer : Option String
  deriving DecidableEq, Repr

/-- One decorator argument: its syntax-kind name, its rendered text
(`getText()`), and its object-literal properties when it is an
`ObjectLiteralExpression`. -/
structure DecoratorArg where
  kindName : String
  text : String
  props : List ObjProp
  deriving DecidableEq, Repr

/-- One decorator invocation: name, arguments, and the full text used by the
relation resolver's cache key (`getFullText()`). -/
structure Decorator where
  name : String
  args : List DecoratorArg
  fullText : String
  deriving DecidableEq, Repr

/-- Observation of a property's declared type node (`getTypeNode()`): its
rendered text and syntax-kind name. -/
structure TypeNode where
  text : String
  kindName : String
  deriving DecidableEq, Repr

/-- A property declaration as observed by the translated utilities: name,
optionality marker, type node, decorators, declared type.  `declId`
distinguishes distinct declarations that happen to agree on all observed
fields (object identity). -/
structure PropertyDecl where
  name : String
  hasQuestionToken : Bool
  typeNode : Option TypeNode
  decorators : List Decorator
  tsType : Ty
  declId : Nat
  deriving DecidableEq, Repr

/-! ## PropertyInheritanceResolver
(`getAllPropertiesIncludingInherited`, get-all-properties-including-inherited.ts
lines 13-46).  The declaration-scoped cache (`getClassCache`) is keyed by the
class object itself and only memoizes this very computation per class, so the
returned value is the one computed below; the pure recursion is embedded. -/

/-- An entity class declaration: its ordered direct properties and its base
class when `getBaseClass()` returns one (`root` models a class with no base,
`sub` a class with a base; the chain is finite by construction). -/
inductive EntityDecl where
  | root (props : List PropertyDecl)
  | sub (props : List PropertyDecl) (base : EntityDecl)

/-- Direct properties of an entity class (`getProperties()`). -/
def EntityDecl.props : EntityDecl → List PropertyDecl
  | .root ps => ps
  | .sub ps _ => ps

/-- Translation of `getAllPropertiesIncludingInherited`: direct properties of
the class; if a base class exists, recursively resolved base properties that
are not overridden by name come first, followed by the direct properties. -/
def getAllPropertiesIncludingInherited : EntityDecl → List PropertyDecl
  | .root props => props
  | .sub props b =>
      let inheritedProperties := getAllPropertiesIncludingInherited b
      let inheritedPropsNotOverridden := inheritedProperties.filter
        (fun inheritedProp =>
          !(props.any (fun currentProp => currentProp.name == inheritedProp.name)))
      inheritedPropsNotOverridden ++ props

/-- Each class along the inheritance chain declares pairwise-distinct direct
property names. -/
def chainDistinctNames : EntityDecl → Bool
  | .root props => (props.map PropertyDecl.name).dedup == props.map PropertyDecl.name
  | .sub props b =>
      ((props.map PropertyDecl.name).dedup == props.map PropertyDecl.name)
        && chainDistinctNames b

/-- A generic non-union declared type used for witness property values. -/
def plainTy : Ty := ⟨⟨none, "", [], false, false⟩, []⟩

/-- Shorthand for a property declaration with only a name (and identity). -/
def mkProp (n : String) (i : Nat) : PropertyDecl :=
  ⟨n, false, none, [], plainTy, i⟩

theorem filter_name_eq_nil (props : List PropertyDecl) (l : List PropertyDecl)
    (n : String) (hshadow : props.any (fun p => p.name == n) = true) :
    (l.filter (fun inheritedProp =>
        !(props.any (fun currentProp => currentProp.name == inheritedProp.name)))).filter
      (fun p => p.name == n) = [] := by
  rw [List.filter_filter]
  rw [List.filter_eq_nil_iff]
  intro x hx
  by_cases hn : x.name = n
  · subst hn
    simp [hshadow]
  · simp [hn]

/-- C1: with no base entity, property resolution returns the direct
properties in declaration order; with a base, it returns the recursively
resolved base properties minus any whose name is re-declared on the child,
followed by the child's direct properties; hence a name declared directly on
the child occurs in the result exactly as it occurs in the child's own
sequence (shadowed inherited properties are dropped). -/
theorem c1_inherited_property_resolution
    (props : List PropertyDecl) (b : EntityDecl) (n : String)
    (hshadow : props.any (fun p => p.name == n) = true) :
    getAllPropertiesIncludingInherited (.root props) = props
    ∧ getAllPropertiesIncludingInherited (.sub props b) =
        (getAllPropertiesIncludingInherited b).filter
          (fun inheritedProp =>
            !(props.any (fun currentProp => currentProp.name == inheritedProp.name)))
          ++ props
    ∧ (getAllPropertiesIncludingInherited (.sub props b)).filter
        (fun p => p.name == n) = props.filter (fun p => p.name == n) := by
  refine ⟨rfl, rfl, ?_⟩
  show ((getAllPropertiesIncludingInherited b).filter _ ++ props).filter _ = _
  rw [List.filter_append, filter_name_eq_nil props _ n hshadow, List.nil_append]

/-- Witness for C1 at a concrete two-level hierarchy in which the child
re-declares the inherited name `id`. -/
theorem c1_inherited_property_resolution_witness :
    ([mkProp "id" 10].any (fun p => p.name == "id") = true)
    ∧ (getAllPropertiesIncludingInherited (.root [mkProp "id" 10]) = [mkProp "id" 10]
      ∧ getAllPropertiesIncludingInherited
          (.sub [mkProp "id" 10] (.root [mkProp "id" 1, mkProp "extra" 2])) =
          (getAllPropertiesIncludingInherited (.root [mkProp "id" 1, mkProp "extra" 2])).filter
            (fun inheritedProp =>
              !([mkProp "id" 10].any
                  (fun currentProp => currentProp.name == inheritedProp.name)))
            ++ [mkProp "id" 10]
      ∧ (getAllPropertiesIncludingInherited
          (.sub [mkProp "id" 10] (.root [mkProp "id" 1, mkProp "extra" 2]))).filter
          (fun p => p.name == "id") = [mkProp "id" 10].filter (fun p => p.name == "id")) :=
  ⟨by decide,
   c1_inherited_property_resolution [mkProp "id" 10]
     (.root [mkProp "id" 1, mkProp "extra" 2]) "id" (by decide)⟩

/-- C10: when every class along the inheritance chain declares
pairwise-distinct direct property names, the resolved property list contains
no two properties with the same name. -/
theorem c10_resolved_names_nodup (e : EntityDecl)
    (h : chainDistinctNames e = true) :
    ((getAllPropertiesIncludingInherited e).map PropertyDecl.name).Nodup := by
  induction e with
  | root props =>
    have : (props.map PropertyDecl.name).dedup = props.map PropertyDecl.name := by
      simpa [chainDistinctNames] using h
    exact getAllPropertiesIncludingInherited.eq_1 props ▸ List.dedup_eq_self.mp this
  | sub props b ih =>
    simp only [chainDistinctNames, Bool.and_eq_true, beq_iff_eq] at h
    obtain ⟨hprops, hchain⟩ := h
    have hbase := ih hchain
    show ((getAllPropertiesIncludingInherited b).filter _ ++ props).map PropertyDecl.name
      |>.Nodup
    rw [List.map_append, List.nodup_append]
    refine ⟨?_, List.dedup_eq_self.mp hprops, ?_⟩
    · exact hbase.sublist ((List.filter_sublist _).map PropertyDecl.name)
    · intro a ha hb
      simp only [List.mem_map] at ha hb
      obtain ⟨x, hx, rfl⟩ := ha
      obtain ⟨y, hy, hxy⟩ := hb
      have hpred := List.of_mem_filter hx
      simp only [Bool.not_eq_true', List.any_eq_false] at hpred
      exact absurd (beq_iff_eq.mpr hxy) (by simp [hpred y hy])

/-- Witness for C10 at a concrete three-level hierarchy with shadowing. -/
theorem c10_resolved_names_nodup_witness :
    (chainDistinctNames
        (.sub [mkProp "id" 10, mkProp "name" 11]
          (.sub [mkProp "id" 1] (.root [mkProp "createdAt" 0, mkProp "id" 5]))) = true)
    ∧ ((getAllPropertiesIncludingInherited
        (.sub [mkProp "id" 10, mkProp "name" 11]
          (.sub [mkProp "id" 1] (.root [mkProp "createdAt" 0, mkProp "id" 5])))).map
        PropertyDecl.name).Nodup :=
  ⟨by decide,
   c10_resolved_names_nodup
     (.sub [mkProp "id" 10, mkProp "name" 11]
       (.sub [mkProp "id" 1] (.root [mkProp "createdAt" 0, mkProp "id" 5])))
     (by decide)⟩

/-! ## EntityRegistry (`createEntityRegistry`, entity-registry module lines
15-29).  A JavaScript object keyed by entity name is modelled as an
association list with JS object-update semantics: assigning to an existing
key overwrites its value in place (keeping the key's original position in
`Object.keys` order), assigning a fresh key appends it. -/

/-- A class declaration as observed by the registry builder and the entity
collector: `getName()` (possibly absent), decorator names, and an identity
distinguishing distinct declaration objects. -/
structure ClassDecl where
  name : Option String
  decoratorNames : List String
  classId : Nat
  deriving DecidableEq, Repr

/-- A source file as observed by the registry builder (`getClasses()`). -/
structure SrcFile where
  classes : List ClassDecl
  deriving DecidableEq, Repr

/-- The registry: name-to-declaration bindings in `Object.keys` order. -/
abbrev EntityRegistry := List (String × ClassDecl)

/-- Assignment `registry[k] = v` on a JS object: overwrite the existing
binding in place, or append a new one. -/
def regInsert (reg : EntityRegistry) (k : String) (v : ClassDecl) : EntityRegistry :=
  if reg.any (fun e => e.1 == k) then
    reg.map (fun e => if e.1 == k then (k, v) else e)
  else reg ++ [(k, v)]

/-- Read `registry[k]`, as an `Option` (JS yields `undefined` when absent). -/
def regLookup (reg : EntityRegistry) (k : String) : Option ClassDecl :=
  (reg.find? (fun e => e.1 == k)).map Prod.snd

/-- `Object.keys(registry).find(key => registry[key] === result)`: the first
binding (in key order) whose value is the given declaration. -/
def regFindKey (reg : EntityRegistry) (v : ClassDecl) : Option String :=
  (reg.find? (fun e => e.2 == v)).map Prod.fst

/-- The body of the registry builder's inner loop: `const className =
cls.getName(); if (className) registry[className] = cls;` (JS truthiness
skips both an absent and an empty name). -/
def regStep (registry : EntityRegistry) (cls : ClassDecl) : EntityRegistry :=
  match cls.name with
  | some className => if className == "" then registry else regInsert registry className cls
  | none => registry

/-- Translation of `createEntityRegistry`: iterate all source files and all
their classes, inserting each named class by name. -/
def createEntityRegistry (sourceFiles : List SrcFile) : EntityRegistry :=
  sourceFiles.foldl (fun registry file => file.classes.foldl regStep registry) []

/-- The name a class is registered under, when any (JS-truthy `getName()`). -/
def truthyName (c : ClassDecl) : Option String :=
  match c.name with
  | some n => if n == "" then none else some n
  | none => none

theorem find?_cons_pos {α : Type} (p : α → Bool) (a : α) (l : List α)
    (h : p a = true) : (a :: l).find? p = some a :=
  List.find?_cons_of_pos l h

theorem find?_cons_neg {α : Type} (p : α → Bool) (a : α) (l : List α)
    (h : p a = false) : (a :: l).find? p = l.find? p :=
  List.find?_cons_of_neg l (by simp [h])

theorem find?_overwrite_self {β : Type} (t : List (String × β)) (k : String) (v : β)
    (hany : t.any (fun e => e.1 == k) = true) :
    (t.map (fun e => if e.1 == k then (k, v) else e)).find? (fun e => e.1 == k)
      = some (k, v) := by
  induction t with
  | nil => simp at hany
  | cons e rest ih =>
    rw [List.map_cons]
    by_cases he : (e.1 == k) = true
    · rw [if_pos he, find?_cons_pos (fun e => e.1 == k) (k, v) _ (by simp)]
    · rw [if_neg he, find?_cons_neg (fun e => e.1 == k) e _ (by simpa using he)]
      rw [List.any_cons] at hany
      rcases Bool.or_eq_true_iff.mp hany with h | h
      · exact absurd h he
      · exact ih h

theorem find?_overwrite_ne {β : Type} (t : List (String × β)) (k k' : String) (v : β)
    (hne : k' ≠ k) :
    (t.map (fun e => if e.1 == k then (k, v) else e)).find? (fun e => e.1 == k')
      = t.find? (fun e => e.1 == k') := by
  induction t with
  | nil => simp
  | cons e rest ih =>
    rw [List.map_cons]
    by_cases he : (e.1 == k) = true
    · have hek : e.1 = k := by simpa using he
      rw [if_pos he,
        find?_cons_neg (fun e => e.1 == k') (k, v) _ (by simpa using Ne.symm hne),
        find?_cons_neg (fun e => e.1 == k') e _ (by simp only [hek]; simpa using Ne.symm hne),
        ih]
    · rw [if_neg he]
      by_cases he' : (e.1 == k') = true
      · rw [find?_cons_pos (fun e => e.1 == k') e _ he',
          find?_cons_pos (fun e => e.1 == k') e _ he']
      · rw [find?_cons_neg (fun e => e.1 == k') e _ (by simpa using he'),
          find?_cons_neg (fun e => e.1 == k') e _ (by simpa using he'), ih]

theorem find?_append_self {β : Type} (t : List (String × β)) (k : String) (v : β)
    (hany : t.any (fun e => e.1 == k) = false) :
    (t ++ [(k, v)]).find? (fun e => e.1 == k) = some (k, v) := by
  induction t with
  | nil => simp
  | cons e rest ih =>
    simp only [List.any_cons, Bool.or_eq_false_iff] at hany
    rw [List.cons_append, find?_cons_neg (fun e => e.1 == k) e _ hany.1, ih hany.2]

theorem find?_append_ne {β : Type} (t : List (String × β)) (k k' : String) (v : β)
    (hne : k' ≠ k) :
    (t ++ [(k, v)]).find? (fun e => e.1 == k') = t.find? (fun e => e.1 == k') := by
  induction t with
  | nil =>
    rw [List.nil_append,
      find?_cons_neg (fun e => e.1 == k') (k, v) _ (by simpa using Ne.symm hne)]
  | cons e rest ih =>
    by_cases he : (e.1 == k') = true
    · rw [List.cons_append, find?_cons_pos (fun e => e.1 == k') e _ he,
        find?_cons_pos (fun e => e.1 == k') e _ he]
    · rw [List.cons_append, find?_cons_neg (fun e => e.1 == k') e _ (by simpa using he),
        find?_cons_neg (fun e => e.1 == k') e _ (by simpa using he), ih]

theorem regLookup_regInsert (reg : EntityRegistry) (k k' : String) (v : ClassDecl) :
    regLookup (regInsert reg k v) k' = if k' = k then some v else regLookup reg k' := by
  unfold regInsert regLookup
  by_cases hk : k' = k
  · subst hk
    by_cases hany : reg.any (fun e => e.1 == k') = true
    · rw [if_pos hany, if_pos rfl, find?_overwrite_self reg k' v hany]
      rfl
    · rw [if_neg hany, if_pos rfl,
        find?_append_self reg k' v (Bool.eq_false_iff.mpr hany)]
      rfl
  · by_cases hany : reg.any (fun e => e.1 == k) = true
    · rw [if_pos hany, if_neg hk, find?_overwrite_ne reg k k' v hk]
    · rw [if_neg hany, if_neg hk, find?_append_ne reg k k' v hk]

theorem filter_cons_pos {α : Type} (p : α → Bool) (a : α) (l : List α)
    (h : p a = true) : (a :: l).filter p = a :: l.filter p := by
  simp [List.filter_cons, h]

theorem filter_cons_neg {α : Type} (p : α → Bool) (a : α) (l : List α)
    (h : p a = false) : (a :: l).filter p = l.filter p := by
  simp [List.filter_cons, h]

theorem getLast?_cons_or {α : Type} (c : α) (xs : List α) :
    (c :: xs).getLast? = xs.getLast?.or (some c) := by
  cases xs with
  | nil => rfl
  | cons y ys => rw [List.getLast?_cons_cons, Option.or_of_isSome (by
      induction ys generalizing y with
      | nil => rfl
      | cons z zs ih => rw [List.getLast?_cons_cons]; exact ih z)]

theorem regLookup_foldl_regStep (l : List ClassDecl) (reg : EntityRegistry)
    (nm : String) :
    regLookup (l.foldl regStep reg) nm =
      ((l.filter (fun c => truthyName c == some nm)).getLast?).or (regLookup reg nm) := by
  induction l generalizing reg with
  | nil => simp
  | cons c cs ih =>
    rw [List.foldl_cons, ih]
    by_cases hc : (truthyName c == some nm) = true
    · have hname : truthyName c = some nm := by simpa using hc
      have hstep : regStep reg c = regInsert reg nm c := by
        cases hn : c.name with
        | none => exact absurd hname (by simp [truthyName, hn])
        | some s =>
          by_cases hs : (s == "") = true
          · exact absurd hname (by simp [truthyName, hn, hs])
          · have hsnm : s = nm := by
              have h2 := hname
              simp only [truthyName, hn, hs, if_false, Bool.false_eq_true,
                Option.some.injEq] at h2
              exact h2
            subst hsnm
            simp [regStep, hn, hs]
      rw [hstep, regLookup_regInsert, if_pos rfl,
        filter_cons_pos (fun c => truthyName c == some nm) c cs hc,
        getLast?_cons_or, Option.or_assoc]
      rfl
    · have hstep : regLookup (regStep reg c) nm = regLookup reg nm := by
        cases hn : c.name with
        | none => simp [regStep, hn]
        | some s =>
          by_cases hs : (s == "") = true
          · simp [regStep, hn, hs]
          · have hne : nm ≠ s := by
              intro hEq
              apply hc
              simp [truthyName, hn, hs, hEq]
            simp only [regStep, hn, hs, Bool.false_eq_true, if_false]
            rw [regLookup_regInsert, if_neg hne]
      rw [hstep,
        filter_cons_neg (fun c => truthyName c == some nm) c cs (by simpa using hc)]

theorem foldl_files_eq_foldl_flatten (fs : List SrcFile) (reg : EntityRegistry) :
    fs.foldl (fun registry file => file.classes.foldl regStep registry) reg =
      ((fs.map SrcFile.classes).flatten).foldl regStep reg := by
  induction fs generalizing reg with
  | nil => rfl
  | cons f rest ih =>
    rw [List.foldl_cons, List.map_cons, List.flatten_cons, List.foldl_append, ih]

/-- Amendment of C9: registry construction resolves a duplicate name by
last-write-wins — looking up a name yields the last class with that
(JS-truthy) name in file/class iteration order; no warning or diagnostic is
produced (the registry is the function's only output). -/
theorem c9_registry_last_write_wins (sourceFiles : List SrcFile) (nm : String) :
    regLookup (createEntityRegistry sourceFiles) nm =
      (((sourceFiles.map SrcFile.classes).flatten).filter
        (fun c => truthyName c == some nm)).getLast? := by
  unfold createEntityRegistry
  rw [foldl_files_eq_foldl_flatten, regLookup_foldl_regStep]
  rw [show regLookup [] nm = none from rfl, Option.or_none]

/-- Counterexample to C9 as stated: with two loaded classes both named `A`,
`createEntityRegistry` does resolve the duplicate, by last-write-wins — the
lookup returns the second declaration, not the first, and no diagnostic
exists in the function's behaviour. -/
theorem c9_counterexample_last_write_wins :
    regLookup
        (createEntityRegistry
          [⟨[⟨some "A", ["Entity"], 1⟩, ⟨some "A", ["Entity"], 2⟩]⟩])
        "A" = some ⟨some "A", ["Entity"], 2⟩
    ∧ regLookup
        (createEntityRegistry
          [⟨[⟨some "A", ["Entity"], 1⟩, ⟨some "A", ["Entity"], 2⟩]⟩])
        "A" ≠ some ⟨some "A", ["Entity"], 1⟩ := by
  constructor
  · rfl
  · decide

/-! ## MemoizationCache (cache-manager.ts, `getStringCache` / `setStringCache`).
The global string-keyed store is a JS `Map`, which preserves insertion order
and overwrites in place; it is modelled per stored value type.  The
size-bound eviction (at 1000 entries) and the periodic time-to-live sweep
(every 100 set operations, 5-minute expiry) only remove entries and are not
reached in the runs quantified over here; they are not modelled. -/

/-- The string-keyed store restricted to one stored value type. -/
abbrev StringCache (α : Type) := List (String × α)

/-- `getStringCache`: the stored value, or `none` for JS `undefined`. -/
def getStringCache {α : Type} (cache : StringCache α) (key : String) : Option α :=
  (cache.find? (fun e => e.1 == key)).map Prod.snd

/-- `setStringCache`: `Map.set` — overwrite the existing entry in place or
append a new one. -/
def setStringCache {α : Type} (cache : StringCache α) (key : String) (value : α) :
    StringCache α :=
  if cache.any (fun e => e.1 == key) then
    cache.map (fun e => if e.1 == key then (key, value) else e)
  else cache ++ [(key, value)]

theorem getStringCache_setStringCache {α : Type} (cache : StringCache α)
    (k k' : String) (v : α) :
    getStringCache (setStringCache cache k v) k'
      = if k' = k then some v else getStringCache cache k' := by
  unfold setStringCache getStringCache
  by_cases hk : k' = k
  · subst hk
    by_cases hany : cache.any (fun e => e.1 == k') = true
    · rw [if_pos hany, if_pos rfl, find?_overwrite_self cache k' v hany]
      rfl
    · rw [if_neg hany, if_pos rfl,
        find?_append_self cache k' v (Bool.eq_false_iff.mpr hany)]
      rfl
  · by_cases hany : cache.any (fun e => e.1 == k) = true
    · rw [if_pos hany, if_neg hk, find?_overwrite_ne cache k k' v hk]
    · rw [if_neg hany, if_neg hk, find?_append_ne cache k k' v hk]

/-! ## FieldPolicyResolver, exclusion
(`shouldExcludePropertyForOperation`, extract-dto-options.ts lines 11-79).
The regex `/exclude:\s*(\[[^\]]*\]|true|false)/` is modelled by a scanner
with the engine's semantics: try the pattern at each start position from the
left; at a position, match the literal `exclude:`, skip maximal whitespace
(no alternative starts with a whitespace character, so no backtracking into
`\s*` can succeed), then try the alternatives in order — a bracket group
`[…]` running to the first `]`, then `true`, then `false`. -/

/-- Match the regex at the current position, returning the first capture
group on success. -/
def matchExcludeAt (l : List Char) : Option (List Char) :=
  match stripLit "exclude:".toList l with
  | none => none
  | some r =>
    let r2 := r.dropWhile isWsChar
    match r2 with
    | '[' :: rest =>
      match rest.dropWhile (fun c => !(c == ']')) with
      | ']' :: _ => some ('[' :: rest.takeWhile (fun c => !(c == ']')) ++ [']'])
      | _ => none
    | _ =>
      if "true".toList.isPrefixOf r2 then some "true".toList
      else if "false".toList.isPrefixOf r2 then some "false".toList
      else none

/-- Leftmost match of the exclude regex over the whole text. -/
def findExcludeCapture : List Char → Option (List Char)
  | [] => none
  | c :: cs =>
    match matchExcludeAt (c :: cs) with
    | some cap => some cap
    | none => findExcludeCapture cs

/-- Element clean-up in the source's array branch:
`.trim().replace(/['"]/g, "").replace(/[\s\n\r]+/g, '')`. -/
def cleanupField (l : List Char) : List Char :=
  ((trimChars l).filter (fun c => !(c == '\'' || c == '"'))).filter
    (fun c => !isWsChar c)

/-- The parsed operation names of a bracket capture `[ … ]`: strip the
brackets, split on commas, clean each element, drop empties. -/
def parseExcludeList (excludeValue : List Char) : List (List Char) :=
  ((splitComma (excludeValue.drop 1).dropLast).map cleanupField).filter
    (fun f => !f.isEmpty)

/-- Translation of the computation performed by
`shouldExcludePropertyForOperation` on a cache miss: find the `DtoOptions`
decorator, inspect its first argument's text, and decide exclusion. -/
def shouldExcludeCore (property : PropertyDecl) (dtoType : String) : Bool :=
  match property.decorators.find? (fun d => d.name == "DtoOptions") with
  | none => false
  | some dtoOptionsDecorator =>
    match dtoOptionsDecorator.args.head? with
    | none => false
    | some arg =>
      let argText := arg.text
      if hasSubstr argText.toList "exclude:".toList then
        match findExcludeCapture argText.toList with
        | some cap =>
          let excludeValue := trimChars cap
          if excludeValue == "true".toList then true
          else if excludeValue == "false".toList then false
          else if excludeValue.head? == some '[' && excludeValue.getLast? == some ']' then
            (parseExcludeList excludeValue).contains dtoType.toList
          else false
        | none => false
      else false

/-- The cache key used by `shouldExcludePropertyForOperation`: built from the
property name and the operation only. -/
def shouldExcludeKey (property : PropertyDecl) (dtoType : String) : String :=
  "shouldExcludePropertyForOperation:" ++ property.name ++ ":" ++ dtoType

/-- Translation of `shouldExcludePropertyForOperation` with its cache: the
source checks the string cache first and stores the computed result under the
key at every return path, which is the memoized form of `shouldExcludeCore`. -/
def shouldExcludePropertyForOperation (property : PropertyDecl) (dtoType : String)
    (cache : StringCache Bool) : Bool × StringCache Bool :=
  let cacheKey := shouldExcludeKey property dtoType
  match getStringCache cache cacheKey with
  | some cachedResult => (cachedResult, cache)
  | none =>
    let result := shouldExcludeCore property dtoType
    (result, setStringCache cache cacheKey result)

/-! Helper lemmas about the scanners, used to settle the exclusion policy. -/

theorem stripLit_self_append (ps l : List Char) : stripLit ps (ps ++ l) = some l := by
  induction ps with
  | nil => rfl
  | cons p ps ih => simp [stripLit, ih]

theorem excludeLit_toList : "exclude:".toList = ['e', 'x', 'c', 'l', 'u', 'd', 'e', ':'] :=
  rfl

theorem matchExcludeAt_ne_e (c : Char) (l : List Char) (h : (c == 'e') = false) :
    matchExcludeAt (c :: l) = none := by
  unfold matchExcludeAt
  rw [excludeLit_toList]
  simp [stripLit, h]

theorem findExcludeCapture_skip (pre l : List Char)
    (hpre : ∀ c ∈ pre, (c == 'e') = false) :
    findExcludeCapture (pre ++ l) = findExcludeCapture l := by
  induction pre with
  | nil => rfl
  | cons c cs ih =>
    rw [List.cons_append]
    simp only [findExcludeCapture, matchExcludeAt_ne_e c _ (hpre c (by simp))]
    exact ih (fun d hd => hpre d (by simp [hd]))

theorem hasSubstr_cons (a : Char) (cs needle : List Char) :
    hasSubstr (a :: cs) needle = (needle.isPrefixOf (a :: cs) || hasSubstr cs needle) := by
  simp only [hasSubstr]

theorem hasSubstr_append (pre mid ns : List Char) (n : Char) :
    hasSubstr (pre ++ ((n :: ns) ++ mid)) (n :: ns) = true := by
  induction pre with
  | nil =>
    rw [List.nil_append, List.cons_append, hasSubstr_cons, Bool.or_eq_true]
    left
    rw [← List.cons_append]
    exact List.isPrefixOf_iff_prefix.mpr (List.prefix_append _ _)
  | cons c cs ih =>
    rw [List.cons_append, hasSubstr_cons, ih, Bool.or_true]

theorem matchExcludeAt_bracket (mid body tail : List Char)
    (hmid : ∀ c ∈ mid, isWsChar c = true)
    (hbody : ∀ c ∈ body, (c == ']') = false) :
    matchExcludeAt ("exclude:".toList ++ (mid ++ ('[' :: (body ++ ']' :: tail))))
      = some ('[' :: (body ++ [']'])) := by
  have hnotWs : ∀ c ∈ body, (fun c => !(c == ']')) c = true := by
    intro c hc
    simp [hbody c hc]
  unfold matchExcludeAt
  rw [stripLit_self_append]
  simp only []
  rw [List.dropWhile_append_of_pos hmid, List.dropWhile_cons,
    if_neg (by rw [show isWsChar '[' = false from rfl]; simp)]
  simp only []
  rw [List.dropWhile_append_of_pos hnotWs, List.takeWhile_append_of_pos hnotWs,
    List.dropWhile_cons, List.takeWhile_cons]
  simp

theorem findExcludeCapture_bracket (mid body tail : List Char)
    (hmid : ∀ c ∈ mid, isWsChar c = true)
    (hbody : ∀ c ∈ body, (c == ']') = false) :
    findExcludeCapture ("exclude:".toList ++ (mid ++ ('[' :: (body ++ ']' :: tail))))
      = some ('[' :: (body ++ [']'])) := by
  rw [excludeLit_toList, List.cons_append]
  simp only [findExcludeCapture]
  rw [← List.cons_append, ← excludeLit_toList, matchExcludeAt_bracket mid body tail hmid hbody]

theorem trimChars_bracket (xs : List Char) :
    trimChars ('[' :: (xs ++ [']'])) = '[' :: (xs ++ [']']) := by
  unfold trimChars
  rw [List.dropWhile_cons, if_neg (by rw [show isWsChar '[' = false from rfl]; simp)]
  rw [List.reverse_cons, List.reverse_append, List.reverse_cons, List.reverse_nil,
    List.nil_append, List.singleton_append, List.cons_append, List.dropWhile_cons,
    if_neg (by rw [show isWsChar ']' = false from rfl]; simp)]
  simp

theorem filter_dropWhile_isWs (r : Char → Bool) (l : List Char)
    (hr : ∀ c, isWsChar c = true → r c = false) :
    (l.dropWhile isWsChar).filter r = l.filter r := by
  induction l with
  | nil => rfl
  | cons c cs ih =>
    by_cases hc : isWsChar c = true
    · rw [List.dropWhile_cons, if_pos hc, ih, List.filter_cons]
      simp [hr c hc]
    · rw [List.dropWhile_cons, if_neg (by simp [hc])]

theorem filter_trimChars (r : Char → Bool) (l : List Char)
    (hr : ∀ c, isWsChar c = true → r c = false) :
    (trimChars l).filter r = l.filter r := by
  unfold trimChars
  rw [List.filter_reverse, filter_dropWhile_isWs r _ hr, List.filter_reverse,
    filter_dropWhile_isWs r _ hr, List.reverse_reverse]

theorem splitComma_ne_nil (l : List Char) : splitComma l ≠ [] := by
  cases l with
  | nil => simp [splitComma]
  | cons c cs =>
    unfold splitComma
    by_cases hc : (c == ',') = true
    · simp [hc]
    · simp only [hc]
      cases h : splitComma cs <;> simp

theorem splitComma_no_comma (p : List Char) (hp : ∀ c ∈ p, (c == ',') = false) :
    splitComma p = [p] := by
  induction p with
  | nil => rfl
  | cons c cs ih =>
    unfold splitComma
    rw [ih (fun d hd => hp d (by simp [hd]))]
    simp [hp c (by simp)]

theorem splitComma_append_comma (xs rest : List Char)
    (hxs : ∀ c ∈ xs, (c == ',') = false) :
    splitComma (xs ++ ',' :: rest) =
      xs :: splitComma rest := by
  induction xs with
  | nil =>
    rw [List.nil_append]
    conv_lhs => rw [splitComma]
    simp
  | cons c cs ih =>
    rw [List.cons_append]
    conv_lhs => rw [splitComma]
    simp only [ih (fun d hd => hxs d (by simp [hd])), hxs c (by simp)]
    simp

/-- Join with commas: left inverse of `splitComma` on comma-free pieces. -/
def joinComma : List (List Char) → List Char
  | [] => []
  | [p] => p
  | p :: ps => p ++ ',' :: joinComma ps

theorem splitComma_joinComma (parts : List (List Char)) (hne : parts ≠ [])
    (h : ∀ part ∈ parts, ∀ c ∈ part, (c == ',') = false) :
    splitComma (joinComma parts) = parts := by
  induction parts with
  | nil => exact absurd rfl hne
  | cons p ps ih =>
    cases ps with
    | nil => exact splitComma_no_comma p (h p (by simp))
    | cons q qs =>
      show splitComma (p ++ ',' :: joinComma (q :: qs)) = p :: q :: qs
      rw [splitComma_append_comma p _ (h p (by simp)),
        ih (by simp) (fun part hpart => h part (by simp [hpart]))]

/-- All characters of the string are JS whitespace. -/
def wsOnly (s : String) : Bool := s.toList.all isWsChar

/-- An operation name free of the characters the source's list parsing
treats specially (whitespace, quotes, comma, closing bracket), and nonempty. -/
def plainName (s : String) : Bool :=
  !s.isEmpty && s.toList.all
    (fun c => !(isWsChar c || c == '\'' || c == '"' || c == ',' || c == ']'))

/-- Rendering of one list element of the annotation: leading whitespace, the
double-quoted operation name, trailing whitespace. -/
def renderItem (it : String × String × String) : List Char :=
  it.1.toList ++ '"' :: (it.2.1.toList ++ '"' :: it.2.2.toList)

/-- Rendering of a `DtoOptions` argument whose `exclude` option is the
boolean `b`, e.g. `{ exclude: true }`. -/
def renderExcludeBool (b : Bool) : String :=
  if b then "\x7b exclude: true \x7d" else "\x7b exclude: false \x7d"

/-- Rendering of a `DtoOptions` argument whose `exclude` option is an
explicit list of operation names, with arbitrary whitespace around each
quoted name inside the list literal. -/
def renderExcludeList (items : List (String × String × String)) : String :=
  String.mk ("\x7b exclude: [".toList
    ++ joinComma (items.map renderItem) ++ "] \x7d".toList)

theorem mem_joinComma (parts : List (List Char)) (c : Char)
    (hc : c ∈ joinComma parts) : c = ',' ∨ ∃ part ∈ parts, c ∈ part := by
  induction parts with
  | nil => simp [joinComma] at hc
  | cons p ps ih =>
    cases ps with
    | nil =>
      right
      exact ⟨p, by simp, by simpa [joinComma] using hc⟩
    | cons q qs =>
      rw [show joinComma (p :: q :: qs) = p ++ ',' :: joinComma (q :: qs) from rfl] at hc
      rcases List.mem_append.mp hc with h | h
      · exact Or.inr ⟨p, by simp, h⟩
      · rcases List.mem_cons.mp h with h | h
        · exact Or.inl h
        · rcases ih h with h | ⟨part, hpart, hcp⟩
          · exact Or.inl h
          · exact Or.inr ⟨part, by simp [hpart], hcp⟩

theorem renderItem_chars (it : String × String × String)
    (hws1 : wsOnly it.1 = true) (_hn : plainName it.2.1 = true)
    (hws2 : wsOnly it.2.2 = true) (c : Char) (hc : c ∈ renderItem it) :
    c = '"' ∨ isWsChar c = true ∨ c ∈ it.2.1.toList := by
  unfold renderItem at hc
  rcases List.mem_append.mp hc with h | h
  · exact Or.inr (Or.inl (List.all_eq_true.mp hws1 c h))
  · rcases List.mem_cons.mp h with h | h
    · exact Or.inl h
    · rcases List.mem_append.mp h with h | h
      · exact Or.inr (Or.inr h)
      · rcases List.mem_cons.mp h with h | h
        · exact Or.inl h
        · exact Or.inr (Or.inl (List.all_eq_true.mp hws2 c h))

theorem plainName_char {s : String} (hn : plainName s = true) {c : Char}
    (hc : c ∈ s.toList) :
    isWsChar c = false ∧ (c == '\'') = false ∧ (c == '"') = false
      ∧ (c == ',') = false ∧ (c == ']') = false := by
  unfold plainName at hn
  rw [Bool.and_eq_true] at hn
  have h := List.all_eq_true.mp hn.2 c hc
  simp only [Bool.not_eq_true', Bool.or_eq_false_iff] at h
  exact ⟨h.1.1.1.1, h.1.1.1.2, h.1.1.2, h.1.2, h.2⟩

theorem joinComma_chars (items : List (String × String × String))
    (hitems : ∀ it ∈ items,
      wsOnly it.1 = true ∧ plainName it.2.1 = true ∧ wsOnly it.2.2 = true)
    (c : Char) (hc : c ∈ joinComma (items.map renderItem)) :
    c = ',' ∨ c = '"' ∨ isWsChar c = true ∨ ∃ it ∈ items, c ∈ it.2.1.toList := by
  rcases mem_joinComma _ c hc with h | ⟨part, hpart, hcp⟩
  · exact Or.inl h
  · rcases List.mem_map.mp hpart with ⟨it, hit, rfl⟩
    obtain ⟨h1, h2, h3⟩ := hitems it hit
    rcases renderItem_chars it h1 h2 h3 c hcp with h | h | h
    · exact Or.inr (Or.inl h)
    · exact Or.inr (Or.inr (Or.inl h))
    · exact Or.inr (Or.inr (Or.inr ⟨it, hit, h⟩))

theorem body_no_rbracket (items : List (String × String × String))
    (hitems : ∀ it ∈ items,
      wsOnly it.1 = true ∧ plainName it.2.1 = true ∧ wsOnly it.2.2 = true) :
    ∀ c ∈ joinComma (items.map renderItem), (c == ']') = false := by
  intro c hc
  rcases joinComma_chars items hitems c hc with h | h | h | ⟨it, hit, hcn⟩
  · subst h; rfl
  · subst h; rfl
  · rcases show c = ' ' ∨ c = '\t' ∨ c = '\n' ∨ c = '\x0b' ∨ c = '\x0c' ∨ c = '\r' by
      simpa [isWsChar, or_assoc] using h with h | h | h | h | h | h <;> (subst h; rfl)
  · exact (plainName_char (hitems it hit).2.1 hcn).2.2.2.2

theorem renderItem_no_comma (it : String × String × String)
    (hws1 : wsOnly it.1 = true) (hn : plainName it.2.1 = true)
    (hws2 : wsOnly it.2.2 = true) :
    ∀ c ∈ renderItem it, (c == ',') = false := by
  intro c hc
  rcases renderItem_chars it hws1 hn hws2 c hc with h | h | h
  · subst h; rfl
  · rcases show c = ' ' ∨ c = '\t' ∨ c = '\n' ∨ c = '\x0b' ∨ c = '\x0c' ∨ c = '\r' by
      simpa [isWsChar, or_assoc] using h with h | h | h | h | h | h <;> (subst h; rfl)
  · exact (plainName_char hn h).2.2.2.1

/-- Combined effect on one character of the source's element clean-up
pipeline: a character survives when it is neither whitespace nor a quote. -/
def keepChar (c : Char) : Bool :=
  !isWsChar c && !(c == '\'' || c == '"')

theorem cleanupField_eq_filter (l : List Char) :
    cleanupField l = l.filter keepChar := by
  unfold cleanupField
  rw [List.filter_filter, filter_trimChars _ l ?hr]
  · rfl
  case hr =>
    intro c hc
    simp [keepChar, hc]

theorem cleanupField_renderItem (it : String × String × String)
    (hws1 : wsOnly it.1 = true) (hn : plainName it.2.1 = true)
    (hws2 : wsOnly it.2.2 = true) :
    cleanupField (renderItem it) = it.2.1.toList := by
  rw [cleanupField_eq_filter]
  have h1 : it.1.toList.filter keepChar = [] := by
    rw [List.filter_eq_nil_iff]
    intro c hc
    simp [keepChar, List.all_eq_true.mp hws1 c hc]
  have h2 : it.2.2.toList.filter keepChar = [] := by
    rw [List.filter_eq_nil_iff]
    intro c hc
    simp [keepChar, List.all_eq_true.mp hws2 c hc]
  have h3 : it.2.1.toList.filter keepChar = it.2.1.toList := by
    rw [List.filter_eq_self]
    intro c hc
    obtain ⟨hw, hq1, hq2, _, _⟩ := plainName_char hn hc
    simp [keepChar, hw, hq1, hq2]
  show (it.1.toList ++ '"' :: (it.2.1.toList ++ '"' :: it.2.2.toList)).filter keepChar
    = it.2.1.toList
  simp only [List.filter_append, List.filter_cons, h1, h2, h3,
    show keepChar '"' = false from rfl, Bool.false_eq_true, if_false,
    List.nil_append, List.append_nil]

theorem toList_beq_comm (s t : String) : (s.toList == t.toList) = (t == s) := by
  by_cases h : t = s
  · subst h; simp
  · have h2 : s.toList ≠ t.toList := fun hh => h (String.toList_inj.mp hh).symm
    rw [beq_eq_false_iff_ne.mpr h2, beq_eq_false_iff_ne.mpr h]

theorem any_map_general {α β : Type} (f : α → β) (l : List α) (p : β → Bool) :
    (l.map f).any p = l.any (fun a => p (f a)) := by
  induction l with
  | nil => rfl
  | cons a as ih => simp [ih]

theorem parseExcludeList_render (items : List (String × String × String))
    (hne : items ≠ [])
    (hitems : ∀ it ∈ items,
      wsOnly it.1 = true ∧ plainName it.2.1 = true ∧ wsOnly it.2.2 = true) :
    parseExcludeList ('[' :: (joinComma (items.map renderItem) ++ [']']))
      = items.map (fun it => it.2.1.toList) := by
  unfold parseExcludeList
  rw [show ('[' :: (joinComma (items.map renderItem) ++ [']'])).drop 1
      = joinComma (items.map renderItem) ++ [']'] from rfl,
    List.dropLast_concat,
    splitComma_joinComma (items.map renderItem) (by simpa using hne) ?hcomma,
    List.map_map]
  case hcomma =>
    intro part hpart c hc
    rcases List.mem_map.mp hpart with ⟨it, hit, rfl⟩
    obtain ⟨ha, hb, hc'⟩ := hitems it hit
    exact renderItem_no_comma it ha hb hc' c hc
  rw [List.map_congr_left (fun it hit => ?piece), List.filter_eq_self.mpr ?nonempty]
  case piece =>
    obtain ⟨ha, hb, hc'⟩ := hitems it hit
    exact cleanupField_renderItem it ha hb hc'
  case nonempty =>
    intro a ha
    rcases List.mem_map.mp ha with ⟨it, hit, rfl⟩
    have hpn := (hitems it hit).2.1
    unfold plainName at hpn
    rw [Bool.and_eq_true] at hpn
    have hne1 : it.2.1 ≠ "" := by
      intro h
      have h1 := hpn.1
      rw [h] at h1
      exact absurd h1 (by decide)
    have hne2 : it.2.1.toList ≠ [] := by
      intro h
      exact hne1 (String.toList_inj.mp (by simpa using h))
    have h4 : it.2.1.toList.isEmpty = false :=
      Bool.eq_false_iff.mpr (fun hh => hne2 (List.isEmpty_iff.mp hh))
    show (!(it.2.1.toList.isEmpty)) = true
    rw [h4]
    rfl

theorem anyCongr {α : Type} (l : List α) (p q : α → Bool)
    (h : ∀ a ∈ l, p a = q a) : l.any p = l.any q := by
  induction l with
  | nil => rfl
  | cons a as ih =>
    simp only [List.any_cons, h a (by simp), ih (fun x hx => h x (by simp [hx]))]

/-- C6: for every property and every operation, exclusion resolution returns
`true` when the `DtoOptions` exclusion argument is the boolean `true`,
`false` when it is `false`, membership of the operation name when it is an
explicit list of operation names (with arbitrary whitespace, including
newlines, inside the list literal), and `false` when the annotation is
absent. -/
theorem c6_exclusion_policy (p : PropertyDecl) (dtoType : String) :
    (p.decorators.find? (fun d => d.name == "DtoOptions") = none →
      shouldExcludeCore p dtoType = false)
    ∧ (∀ (d : Decorator) (a : DecoratorArg) (b : Bool),
        p.decorators.find? (fun d => d.name == "DtoOptions") = some d →
        d.args.head? = some a → a.text = renderExcludeBool b →
        shouldExcludeCore p dtoType = b)
    ∧ (∀ (d : Decorator) (a : DecoratorArg)
        (items : List (String × String × String)),
        p.decorators.find? (fun d => d.name == "DtoOptions") = some d →
        d.args.head? = some a →
        (∀ it ∈ items,
          wsOnly it.1 = true ∧ plainName it.2.1 = true ∧ wsOnly it.2.2 = true) →
        a.text = renderExcludeList items →
        shouldExcludeCore p dtoType = items.any (fun it => it.2.1 == dtoType)) := by
  refine ⟨?_, ?_, ?_⟩
  · intro h
    unfold shouldExcludeCore
    rw [h]
  · intro d a b hfind hhead htext
    unfold shouldExcludeCore
    rw [hfind]
    simp only []
    rw [hhead]
    simp only []
    rw [htext]
    cases b <;> rfl
  · intro d a items hfind hhead hitems htext
    rcases items with _ | ⟨i0, irest⟩
    · unfold shouldExcludeCore
      rw [hfind]
      simp only []
      rw [hhead]
      simp only []
      rw [htext]
      rfl
    · have hbody := body_no_rbracket (i0 :: irest) hitems
      have hdecomp : (renderExcludeList (i0 :: irest)).toList
          = ['\x7b', ' '] ++ ("exclude:".toList ++ ([' ']
              ++ ('[' :: (joinComma ((i0 :: irest).map renderItem)
                    ++ ']' :: [' ', '\x7d'])))) := by
        rw [show (renderExcludeList (i0 :: irest)).toList
            = "\x7b exclude: [".toList ++ joinComma ((i0 :: irest).map renderItem)
              ++ "] \x7d".toList from rfl,
          show "\x7b exclude: [".toList
            = ['\x7b', ' '] ++ ("exclude:".toList ++ ([' '] ++ ['['])) from rfl,
          show "] \x7d".toList = ']' :: [' ', '\x7d'] from rfl]
        simp [List.append_assoc]
      have hhs : hasSubstr (renderExcludeList (i0 :: irest)).toList
          "exclude:".toList = true := by
        rw [hdecomp, excludeLit_toList]
        exact hasSubstr_append _ _ _ _
      have hfc : findExcludeCapture (renderExcludeList (i0 :: irest)).toList
          = some ('[' :: (joinComma ((i0 :: irest).map renderItem) ++ [']'])) := by
        rw [hdecomp,
          findExcludeCapture_skip ['\x7b', ' '] _ (by decide),
          findExcludeCapture_bracket [' '] _ [' ', '\x7d'] (by decide) hbody]
      have hbt : (('[' :: (joinComma ((i0 :: irest).map renderItem) ++ [']']))
          == "true".toList) = false := by
        rw [show ("true".toList : List Char) = 't' :: ['r', 'u', 'e'] from rfl,
          List.cons_beq_cons, show (('[' == 't') : Bool) = false from rfl,
          Bool.false_and]
      have hbf : (('[' :: (joinComma ((i0 :: irest).map renderItem) ++ [']']))
          == "false".toList) = false := by
        rw [show ("false".toList : List Char) = 'f' :: ['a', 'l', 's', 'e'] from rfl,
          List.cons_beq_cons, show (('[' == 'f') : Bool) = false from rfl,
          Bool.false_and]
      have hlast : ('[' :: (joinComma ((i0 :: irest).map renderItem) ++ [']'])).getLast?
          = some ']' := by
        rw [← List.cons_append, List.getLast?_concat]
      unfold shouldExcludeCore
      rw [hfind]
      simp only []
      rw [hhead]
      simp only []
      rw [htext, hhs]
      rw [if_pos rfl, hfc]
      simp only []
      rw [trimChars_bracket]
      simp only [hbt, hbf, Bool.false_eq_true, if_false, hlast, List.head?_cons]
      rw [if_pos (by simp),
        parseExcludeList_render (i0 :: irest) (by simp) hitems,
        List.contains_eq_any_beq, any_map_general]
      exact anyCongr _ _ _ (fun it _ => toList_beq_comm dtoType it.2.1)

/-- Concrete decorator argument carrying a rendered boolean exclusion. -/
def c6ArgBool (b : Bool) : DecoratorArg :=
  ⟨"ObjectLiteralExpression", renderExcludeBool b, []⟩

/-- Concrete `DtoOptions` decorator with a boolean exclusion argument. -/
def c6DecBool (b : Bool) : Decorator :=
  ⟨"DtoOptions", [c6ArgBool b], ""⟩

/-- Concrete items of a rendered exclusion list, with newline whitespace. -/
def c6Items : List (String × String × String) :=
  [("", "create", ""), ("\n  ", "update", "\n")]

/-- Concrete decorator argument carrying a rendered exclusion list. -/
def c6ArgList : DecoratorArg :=
  ⟨"ObjectLiteralExpression", renderExcludeList c6Items, []⟩

/-- Concrete `DtoOptions` decorator with a list exclusion argument. -/
def c6DecList : Decorator :=
  ⟨"DtoOptions", [c6ArgList], ""⟩

/-- Property carrying a given `DtoOptions` decorator. -/
def c6Prop (d : Decorator) : PropertyDecl :=
  ⟨"description", false, none, [d], plainTy, 0⟩

/-- Witness for C6: an absent annotation, both boolean forms, and a
two-element list form containing newlines, all at operation `update`. -/
theorem c6_exclusion_policy_witness :
    (shouldExcludeCore (mkProp "plain" 7) "update" = false)
    ∧ (shouldExcludeCore (c6Prop (c6DecBool true)) "update" = true)
    ∧ (shouldExcludeCore (c6Prop (c6DecBool false)) "update" = false)
    ∧ (shouldExcludeCore (c6Prop c6DecList) "update"
        = c6Items.any (fun it => it.2.1 == "update")) :=
  ⟨(c6_exclusion_policy (mkProp "plain" 7) "update").1 rfl,
   (c6_exclusion_policy (c6Prop (c6DecBool true)) "update").2.1
     (c6DecBool true) (c6ArgBool true) true rfl rfl rfl,
   (c6_exclusion_policy (c6Prop (c6DecBool false)) "update").2.1
     (c6DecBool false) (c6ArgBool false) false rfl rfl rfl,
   (c6_exclusion_policy (c6Prop c6DecList) "update").2.2
     c6DecList c6ArgList c6Items rfl rfl (by decide) rfl⟩

/-! ## RelationResolver
(`resolveRelationEntityTypeWithRegistry` and
`inferEntityTypeFromPropertyTypeWithRegistry`, entity-registry module lines
34-218).  The regexes are modelled by scanners with the engine's leftmost
semantics, like the exclusion regex above. -/

/-- Match `\(\)\s*=>\s*(\w+)` at the current position, returning the captured
word. -/
def matchThunkAt (l : List Char) : Option (List Char) :=
  match stripLit "()".toList l with
  | none => none
  | some r =>
    match stripLit "=>".toList (r.dropWhile isWsChar) with
    | none => none
    | some r3 =>
      match r3.dropWhile isWsChar with
      | c :: cs => if isWordChar c then some (c :: cs.takeWhile isWordChar) else none
      | [] => none

/-- Leftmost match of the thunk pattern `() => Entity` over the whole text. -/
def findThunkCapture : List Char → Option (List Char)
  | [] => none
  | c :: cs =>
    match matchThunkAt (c :: cs) with
    | some cap => some cap
    | none => findThunkCapture cs

/-- Match `import\([^)]+\)\.([A-Za-z_][A-Za-z0-9_]*)` at the current
position, returning the captured identifier and the remainder after the
match (the `g`-flag scan resumes there). -/
def matchImportAt (l : List Char) : Option (String × List Char) :=
  match stripLit "import(".toList l with
  | none => none
  | some r =>
    match r.takeWhile (fun c => !(c == ')')), r.dropWhile (fun c => !(c == ')')) with
    | [], _ => none
    | _ :: _, ')' :: '.' :: c :: cs =>
      if isIdentStart c then
        some (⟨c :: cs.takeWhile isWordChar⟩, cs.dropWhile isWordChar)
      else none
    | _, _ => none

/-- All (non-overlapping, left-to-right) captures of the import-qualified
pattern, as produced by `String.prototype.match` with the `g` flag.  The
fuel starts at the text length; every step consumes at least one character,
so the fuel never runs out before the scan completes. -/
def importIdentsGo : Nat → List Char → List String
  | 0, _ => []
  | _, [] => []
  | fuel + 1, c :: cs =>
    match matchImportAt (c :: cs) with
    | some (name, rest) => name :: importIdentsGo fuel rest
    | none => importIdentsGo fuel cs

/-- The captured identifiers of `text.match(/import\([^)]+\)\.…/g)`. -/
def importIdents (l : List Char) : List String :=
  importIdentsGo l.length l

/-- The union handling at the top of the type-based inference: when the
declared type is a union, keep the first member that is neither `undefined`
nor `null` (and its symbol name when it has one); otherwise keep the
declared type itself. -/
def selectActual (t : Ty) : TyCore × String :=
  let typeName0 := t.core.symbol.getD ""
  if t.union.isEmpty then (t.core, typeName0)
  else
    match t.union.find? (fun m => !m.isUndef && !m.isNull) with
    | some m =>
      (m, match m.symbol with
          | some s => s
          | none => typeName0)
    | none => (t.core, typeName0)

/-- The name the type-based inference decides to look up (cache aside):
the single-argument `Collection`/`Ref` wrappers unwrap to their argument's
symbol, otherwise the effective name (the last import-qualified identifier
of the type text when present, else the symbol name) is used when non-empty.
A wrapper branch whose type argument has no symbol falls through to null, as
in the source. -/
def inferTargetName (t : Ty) : Option String :=
  let (actualType, actualTypeName0) := selectActual t
  let entityNameToFind :=
    match (importIdents actualType.text.toList).getLast? with
    | some lastIdent => lastIdent
    | none => actualTypeName0
  let actualTypeName :=
    if actualTypeName0 == "" && !(entityNameToFind == "") then entityNameToFind
    else actualTypeName0
  if actualTypeName == "Collection" && !actualType.args.isEmpty then
    match actualType.args.head? with
    | some argTy => argTy.symbol
    | none => none
  else if actualTypeName == "Ref" && !actualType.args.isEmpty then
    match actualType.args.head? with
    | some argTy => argTy.symbol
    | none => none
  else if !(entityNameToFind == "") then some entityNameToFind
  else none

/-- Core of `inferEntityTypeFromPropertyTypeWithRegistry` (cache aside):
look the decided name up in the registry; returns the resolved declaration
and the name to store in the cache (the looked-up name on success, else
null). -/
def inferCoreNamed (t : Ty) (registry : EntityRegistry) :
    Option ClassDecl × Option String :=
  match inferTargetName t with
  | some nm =>
    let result := regLookup registry nm
    (result, if result.isSome then some nm else none)
  | none => (none, none)

/-- The cache key of the type-based inference (property name only). -/
def inferKey (property : PropertyDecl) : String :=
  "inferEntityTypeFromPropertyTypeWithRegistry:" ++ property.name

/-- Translation of `inferEntityTypeFromPropertyTypeWithRegistry`: consult the
string cache (a cached name is re-looked-up in the current registry, a cached
null yields null), otherwise run the core inference and store its name. -/
def inferEntityTypeFromPropertyTypeWithRegistry (property : PropertyDecl)
    (registry : EntityRegistry) (cache : StringCache (Option String)) :
    Option ClassDecl × StringCache (Option String) :=
  let cacheKey := inferKey property
  match getStringCache cache cacheKey with
  | some (some cachedName) => (regLookup registry cachedName, cache)
  | some none => (none, cache)
  | none =>
    let rn := inferCoreNamed property.tsType registry
    (rn.1, setStringCache cache cacheKey rn.2)

/-- The cache key of relation resolution (property name and decorator full
text). -/
def resolveRelationKey (decorator : Decorator) (property : PropertyDecl) : String :=
  "resolveRelationEntityTypeWithRegistry:" ++ property.name ++ ":" ++ decorator.fullText

/-- Translation of `resolveRelationEntityTypeWithRegistry`: consult the
cache; otherwise try the thunk pattern on the first argument's text, then
the options-object shape (falling back to type-based inference), then the
no-argument shape (same inference); anything else resolves to null. -/
def resolveRelationEntityTypeWithRegistry (decorator : Decorator)
    (property : PropertyDecl) (registry : EntityRegistry)
    (cache : StringCache (Option String)) :
    Option ClassDecl × StringCache (Option String) :=
  let cacheKey := resolveRelationKey decorator property
  match getStringCache cache cacheKey with
  | some (some cachedName) => (regLookup registry cachedName, cache)
  | some none => (none, cache)
  | none =>
    match decorator.args.head? with
    | some firstArgNode =>
      let firstArg := firstArgNode.text
      match findThunkCapture firstArg.toList with
      | some cap =>
        let entityName : String := ⟨cap⟩
        let result := regLookup registry entityName
        (result,
          setStringCache cache cacheKey
            (if result.isSome then some entityName else none))
      | none =>
        if "\x7b".toList.isPrefixOf firstArg.toList
            && "\x7d".toList.isSuffixOf firstArg.toList then
          let rc := inferEntityTypeFromPropertyTypeWithRegistry property registry cache
          match rc.1 with
          | some cls => (rc.1, setStringCache rc.2 cacheKey (regFindKey registry cls))
          | none => (none, setStringCache rc.2 cacheKey none)
        else
          (none, setStringCache cache cacheKey none)
    | none =>
      let rc := inferEntityTypeFromPropertyTypeWithRegistry property registry cache
      match rc.1 with
      | some cls => (rc.1, setStringCache rc.2 cacheKey (regFindKey registry cls))
      | none => (none, setStringCache rc.2 cacheKey none)

/-! ## Enum-type extraction (`extractEnumTypeFromDecorator`,
extract-enum-type module). -/

/-- Identifier-start class `[A-Za-z_$]` of the enum regexes. -/
def isEnumIdentStart (c : Char) : Bool :=
  c.isAlpha || c == '_' || c == '$'

/-- Identifier-continuation class `[A-Za-z0-9_$]` of the enum regexes. -/
def isEnumIdentChar (c : Char) : Bool :=
  c.isAlphanum || c == '_' || c == '$'

/-- Match `items:\s*\(\)\s*=>\s*([A-Za-z_$][A-Za-z0-9_$]*)` at the current
position. -/
def matchItemsArrowAt (l : List Char) : Option (List Char) :=
  match stripLit "items:".toList l with
  | none => none
  | some r =>
    match stripLit "()".toList (r.dropWhile isWsChar) with
    | none => none
    | some r2 =>
      match stripLit "=>".toList (r2.dropWhile isWsChar) with
      | none => none
      | some r3 =>
        match r3.dropWhile isWsChar with
        | c :: cs =>
          if isEnumIdentStart c then some (c :: cs.takeWhile isEnumIdentChar) else none
        | [] => none

/-- Leftmost match of the arrow-function `items:` pattern. -/
def findItemsArrowCapture : List Char → Option (List Char)
  | [] => none
  | c :: cs =>
    match matchItemsArrowAt (c :: cs) with
    | some cap => some cap
    | none => findItemsArrowCapture cs

/-- Match `items:\s*([A-Za-z_$][A-Za-z0-9_$]*)` at the current position. -/
def matchItemsDirectAt (l : List Char) : Option (List Char) :=
  match stripLit "items:".toList l with
  | none => none
  | some r =>
    match r.dropWhile isWsChar with
    | c :: cs =>
      if isEnumIdentStart c then some (c :: cs.takeWhile isEnumIdentChar) else none
    | [] => none

/-- Leftmost match of the direct-reference `items:` pattern. -/
def findItemsDirectCapture : List Char → Option (List Char)
  | [] => none
  | c :: cs =>
    match matchItemsDirectAt (c :: cs) with
    | some cap => some cap
    | none => findItemsDirectCapture cs

/-- Core of `extractEnumTypeFromDecorator` (cache aside): the enum type name
extracted from the `Enum` decorator's first argument, in the four supported
shapes. -/
def extractEnumTypeCore (property : PropertyDecl) : Option String :=
  match property.decorators.find? (fun d => d.name == "Enum") with
  | none => none
  | some enumDecorator =>
    match enumDecorator.args.head? with
    | none => none
    | some firstArg =>
      let argText := firstArg.text
      if "() => ".toList.isPrefixOf argText.toList then
        some ⟨trimChars (argText.toList.drop 6)⟩
      else if !hasSubstr argText.toList "\x7b".toList
          && !hasSubstr argText.toList "=>".toList then
        some ⟨trimChars argText.toList⟩
      else if "\x7b".toList.isPrefixOf argText.toList
          && hasSubstr argText.toList "items:".toList then
        match findItemsArrowCapture argText.toList with
        | some cap => some ⟨cap⟩
        | none =>
          match findItemsDirectCapture argText.toList with
          | some cap => some ⟨cap⟩
          | none => none
      else none

/-- The cache key of enum extraction (property name only). -/
def extractEnumKey (property : PropertyDecl) : String :=
  "extractEnumTypeFromDecorator:" ++ property.name

/-- Translation of `extractEnumTypeFromDecorator` with its cache: the source
checks the string cache first and stores the result under the key at every
return path, which is the memoized form of `extractEnumTypeCore`. -/
def extractEnumTypeFromDecorator (property : PropertyDecl)
    (cache : StringCache (Option String)) :
    Option String × StringCache (Option String) :=
  let cacheKey := extractEnumKey property
  match getStringCache cache cacheKey with
  | some cachedResult => (cachedResult, cache)
  | none =>
    let result := extractEnumTypeCore property
    (result, setStringCache cache cacheKey result)

theorem getStringCache_nil {α : Type} (k : String) :
    getStringCache ([] : StringCache α) k = none := rfl

theorem char_beq_comm (c d : Char) : (c == d) = (d == c) := by
  by_cases h : c = d
  · subst h; rfl
  · rw [beq_eq_false_iff_ne.mpr h, beq_eq_false_iff_ne.mpr (Ne.symm h)]

theorem wordChar_beq_false {c d : Char} (hc : isWordChar c = true)
    (hd : isWordChar d = false) : (c == d) = false := by
  rcases Bool.eq_false_or_eq_true (c == d) with h | h
  · have : c = d := by simpa using h
    subst this
    rw [hc] at hd
    cases hd
  · exact h

theorem findThunkCapture_none_of_no_paren (l : List Char)
    (h : ∀ c ∈ l, (c == '(') = false) :
    findThunkCapture l = none := by
  induction l with
  | nil => rfl
  | cons c cs ih =>
    have hmatch : matchThunkAt (c :: cs) = none := by
      unfold matchThunkAt
      rw [show ("()".toList : List Char) = '(' :: [')'] from rfl]
      simp [stripLit, h c (by simp)]
    simp only [findThunkCapture, hmatch]
    exact ih (fun d hd => h d (by simp [hd]))

/-- Amendment of C2: a relation decorator whose first argument is a bare
identifier (word characters only) matches neither the thunk pattern
`() => Entity` nor the options-object shape, so resolution returns null —
even when that identifier names a registered entity — and stores null in
the cache under the relation cache key. -/
theorem c2_bare_identifier_resolves_null
    (decorator : Decorator) (property : PropertyDecl) (registry : EntityRegistry)
    (firstArgNode : DecoratorArg) (t : String)
    (hhead : decorator.args.head? = some firstArgNode)
    (htext : firstArgNode.text = t)
    (hne : t.toList ≠ [])
    (hword : ∀ c ∈ t.toList, isWordChar c = true) :
    resolveRelationEntityTypeWithRegistry decorator property registry []
      = (none, [(resolveRelationKey decorator property, none)]) := by
  unfold resolveRelationEntityTypeWithRegistry
  simp only [getStringCache_nil]
  rw [hhead]
  simp only []
  rw [htext]
  have hthunk : findThunkCapture t.toList = none := by
    apply findThunkCapture_none_of_no_paren
    intro c hc
    exact wordChar_beq_false (hword c hc) (by rfl)
  rw [hthunk]
  have hbrace : ("\x7b".toList.isPrefixOf t.toList) = false := by
    cases hl : t.toList with
    | nil => exact absurd hl hne
    | cons c cs =>
      rw [show ("\x7b".toList : List Char) = ['\x7b'] from rfl]
      show (('\x7b' == c) && List.isPrefixOf [] cs) = false
      have hcb : (c == '\x7b') = false :=
        wordChar_beq_false (hword c (by rw [hl]; simp)) (by rfl)
      rw [char_beq_comm '\x7b' c, hcb, Bool.false_and]
  rw [hbrace, Bool.false_and]
  simp [setStringCache]

/-- Concrete registered target entity for the C2 counterexample. -/
def c2Target : ClassDecl := ⟨some "Target", ["Entity"], 1⟩

/-- Concrete registry containing `Target`. -/
def c2Registry : EntityRegistry := [("Target", c2Target)]

/-- Concrete relation decorator whose first argument is the bare identifier
`Target`. -/
def c2Decorator : Decorator :=
  ⟨"ManyToOne", [⟨"Identifier", "Target", []⟩], "@ManyToOne(Target)"⟩

/-- Concrete property carrying the bare-identifier relation decorator. -/
def c2Property : PropertyDecl :=
  ⟨"target", false, none, [c2Decorator], plainTy, 0⟩

/-- Counterexample to C2 as stated: over a bare-identifier decorator whose
identifier `Target` is registered, resolution returns null, not the registry
entry for `Target`, and stores null in the cache under the relation key. -/
theorem c2_counterexample_bare_identifier :
    (resolveRelationEntityTypeWithRegistry c2Decorator c2Property c2Registry []).1 = none
    ∧ regLookup c2Registry "Target" = some c2Target
    ∧ (resolveRelationEntityTypeWithRegistry c2Decorator c2Property c2Registry []).1
        ≠ regLookup c2Registry "Target"
    ∧ (resolveRelationEntityTypeWithRegistry c2Decorator c2Property c2Registry []).2
        = [(resolveRelationKey c2Decorator c2Property, none)] := by
  refine ⟨by decide, by decide, by decide, by decide⟩

/-- Witness for the C2 amendment at the concrete bare identifier `Target`. -/
theorem c2_bare_identifier_resolves_null_witness :
    ("Target".toList ≠ [] ∧ ∀ c ∈ "Target".toList, isWordChar c = true)
    ∧ resolveRelationEntityTypeWithRegistry c2Decorator c2Property c2Registry []
        = (none, [(resolveRelationKey c2Decorator c2Property, none)]) :=
  ⟨⟨by decide, by decide⟩,
   c2_bare_identifier_resolves_null c2Decorator c2Property c2Registry
     ⟨"Identifier", "Target", []⟩ "Target" rfl rfl (by decide) (by decide)⟩

/-- C8: type-based inference (a) discards the null/undefined members of a
union and keeps the remaining non-nullable member; (b) unwraps a
single-argument `Collection<Target>` or `Ref<Target>` and returns the
registry entry for `Target`; (c) when the type text embeds import-qualified
references `import(…).Identifier`, looks up the last such identifier. -/
theorem c8_type_based_inference (property : PropertyDecl) (registry : EntityRegistry) :
    (∀ (pre post : List TyCore) (m : TyCore),
      property.tsType.union = pre ++ m :: post →
      (∀ x ∈ pre, (!x.isUndef && !x.isNull) = false) →
      (!m.isUndef && !m.isNull) = true →
      selectActual property.tsType
        = (m, match m.symbol with
              | some s => s
              | none => property.tsType.core.symbol.getD ""))
    ∧ (∀ (wrapper n : String) (targ : TyArg) (c : ClassDecl),
      (wrapper = "Collection" ∨ wrapper = "Ref") →
      property.tsType.union = [] →
      property.tsType.core.symbol = some wrapper →
      property.tsType.core.args = [targ] →
      targ.symbol = some n →
      regLookup registry n = some c →
      (inferEntityTypeFromPropertyTypeWithRegistry property registry []).1 = some c)
    ∧ (∀ (s lastIdent : String),
      property.tsType.union = [] →
      property.tsType.core.symbol = some s →
      s ≠ "" → s ≠ "Collection" → s ≠ "Ref" →
      (importIdents property.tsType.core.text.toList).getLast? = some lastIdent →
      lastIdent ≠ "" →
      (inferEntityTypeFromPropertyTypeWithRegistry property registry []).1
        = regLookup registry lastIdent) := by
  refine ⟨?_, ?_, ?_⟩
  · intro pre post m hunion hpre hm
    unfold selectActual
    rw [hunion]
    have hne : (pre ++ m :: post).isEmpty = false := by
      cases pre <;> rfl
    rw [hne]
    simp only [Bool.false_eq_true, if_false]
    rw [List.find?_append, List.find?_eq_none.mpr (fun x hx => by simp [hpre x hx]),
      Option.none_or, find?_cons_pos _ m post hm]
  · intro wrapper n targ c hw hunion hsym hargs htarg hreg
    unfold inferEntityTypeFromPropertyTypeWithRegistry
    simp only [getStringCache_nil]
    unfold inferCoreNamed inferTargetName selectActual
    rw [hunion]
    simp only [List.isEmpty_nil, if_true, hsym]
    rcases hw with hw | hw <;>
      (subst hw
       simp only [Option.getD_some, hargs]
       simp [htarg, hreg])
  · intro s lastIdent hunion hsym hs hsc hsr hlast hlne
    unfold inferEntityTypeFromPropertyTypeWithRegistry
    simp only [getStringCache_nil]
    unfold inferCoreNamed inferTargetName selectActual
    rw [hunion, hsym]
    have hlast2 : (importIdents property.tsType.core.text.data).getLast?
        = some lastIdent := hlast
    simp [hlast2, hs, hsc, hsr, hlne]

/-- Registry for the C8 witness. -/
def c8Reg : EntityRegistry :=
  [("Product", ⟨some "Product", ["Entity"], 1⟩),
   ("Category", ⟨some "Category", ["Entity"], 2⟩)]

/-- Non-null union member `Category` for the C8 witness. -/
def c8CatMember : TyCore := ⟨some "Category", "Category", [], false, false⟩

/-- Union type `Category | null` (null member listed first). -/
def c8UnionTy : Ty :=
  ⟨⟨none, "Category | null", [], false, false⟩,
   [⟨none, "null", [], true, false⟩, c8CatMember]⟩

/-- Wrapper type `Collection<Product>`. -/
def c8CollTy : Ty :=
  ⟨⟨some "Collection", "Collection<Product>", [⟨some "Product"⟩], false, false⟩, []⟩

/-- Import-qualified type text whose last qualified identifier is `Product`. -/
def c8ImportTy : Ty :=
  ⟨⟨some "Wrapper", "import(\"/a\").Wrapper<import(\"/b\").Product>", [], false, false⟩, []⟩

/-- Property with a given declared type, for the C8 witness. -/
def c8Prop (t : Ty) : PropertyDecl := ⟨"rel", false, none, [], t, 0⟩

/-- Witness for C8: the union `Category | null`, the wrapper
`Collection<Product>`, and an import-qualified text, on a concrete
registry. -/
theorem c8_type_based_inference_witness :
    selectActual (c8Prop c8UnionTy).tsType = (c8CatMember, "Category")
    ∧ (inferEntityTypeFromPropertyTypeWithRegistry (c8Prop c8CollTy) c8Reg []).1
        = some ⟨some "Product", ["Entity"], 1⟩
    ∧ (inferEntityTypeFromPropertyTypeWithRegistry (c8Prop c8ImportTy) c8Reg []).1
        = regLookup c8Reg "Product" :=
  ⟨(c8_type_based_inference (c8Prop c8UnionTy) c8Reg).1
     [⟨none, "null", [], true, false⟩] [] c8CatMember rfl (by decide) (by decide),
   (c8_type_based_inference (c8Prop c8CollTy) c8Reg).2.1
     "Collection" "Product" ⟨some "Product"⟩ ⟨some "Product", ["Entity"], 1⟩
     (Or.inl rfl) rfl rfl rfl rfl (by decide),
   (c8_type_based_inference (c8Prop c8ImportTy) c8Reg).2.2
     "Wrapper" "Product" rfl rfl (by decide) (by decide) (by decide)
     (by decide) (by decide)⟩

/-! Lemmas for cache idempotence of the resolvers. -/

theorem regLookup_mem {reg : EntityRegistry} {n : String} {c : ClassDecl}
    (h : regLookup reg n = some c) : (n, c) ∈ reg := by
  unfold regLookup at h
  cases hf : reg.find? (fun e => e.1 == n) with
  | none => rw [hf] at h; cases h
  | some e =>
    rw [hf] at h
    have he : e.2 = c := by simpa using h
    have hp : e.1 = n := by simpa using List.find?_some hf
    have hmem := List.mem_of_find?_eq_some hf
    rw [← he, ← hp]
    exact hmem

theorem regLookup_of_mem_nodup {reg : EntityRegistry} {k : String} {v : ClassDecl}
    (hnd : (reg.map Prod.fst).Nodup) (hmem : (k, v) ∈ reg) :
    regLookup reg k = some v := by
  induction reg with
  | nil => cases hmem
  | cons e t ih =>
    rw [List.map_cons, List.nodup_cons] at hnd
    rcases List.mem_cons.mp hmem with h | h
    · unfold regLookup
      rw [← h, find?_cons_pos _ (k, v) _ (by simp)]
      rfl
    · have hk : k ∈ t.map Prod.fst := List.mem_map.mpr ⟨(k, v), h, rfl⟩
      have hne : (e.1 == k) = false := by
        rw [beq_eq_false_iff_ne]
        intro hEq
        exact hnd.1 (hEq ▸ hk)
      unfold regLookup
      rw [find?_cons_neg _ e _ hne]
      exact ih hnd.2 h

theorem inferCoreNamed_shape (t : Ty) (reg : EntityRegistry) :
    (inferCoreNamed t reg).1 = none
      ∨ ∃ nm, (inferCoreNamed t reg).1 = regLookup reg nm := by
  unfold inferCoreNamed
  cases h : inferTargetName t with
  | some nm => exact Or.inr ⟨nm, rfl⟩
  | none => exact Or.inl rfl

theorem inferCoreNamed_mem {t : Ty} {reg : EntityRegistry} {cls : ClassDecl}
    (h : (inferCoreNamed t reg).1 = some cls) : ∃ k, (k, cls) ∈ reg := by
  rcases inferCoreNamed_shape t reg with hs | ⟨nm, hs⟩
  · rw [hs] at h; cases h
  · rw [hs] at h
    exact ⟨nm, regLookup_mem h⟩

theorem infer_result_mem {p : PropertyDecl} {reg : EntityRegistry}
    {cache : StringCache (Option String)} {cls : ClassDecl}
    (h : (inferEntityTypeFromPropertyTypeWithRegistry p reg cache).1 = some cls) :
    ∃ k, (k, cls) ∈ reg := by
  unfold inferEntityTypeFromPropertyTypeWithRegistry at h
  simp only [] at h
  cases hg : getStringCache cache (inferKey p) with
  | some v =>
    cases v with
    | some n =>
      rw [hg] at h
      exact ⟨n, regLookup_mem (by simpa using h)⟩
    | none =>
      rw [hg] at h
      simp at h
  | none =>
    rw [hg] at h
    exact inferCoreNamed_mem (by simpa using h)

theorem regFindKey_round {reg : EntityRegistry} {cls : ClassDecl}
    (hnd : (reg.map Prod.fst).Nodup) (hmem : ∃ k, (k, cls) ∈ reg) :
    ∃ n, regFindKey reg cls = some n ∧ regLookup reg n = some cls := by
  obtain ⟨k0, hmem0⟩ := hmem
  cases hf : reg.find? (fun e => e.2 == cls) with
  | none =>
    exact absurd (by simp : (((k0, cls) : String × ClassDecl).2 == cls) = true)
      (by simpa using List.find?_eq_none.mp hf (k0, cls) hmem0)
  | some e =>
    have he : e.2 = cls := by simpa using List.find?_some hf
    have hmem2 := List.mem_of_find?_eq_some hf
    refine ⟨e.1, ?_, ?_⟩
    · unfold regFindKey
      rw [hf]
      rfl
    · rw [← he]
      exact regLookup_of_mem_nodup hnd (by simpa using hmem2)

theorem shouldExclude_idem (p : PropertyDecl) (dtoType : String)
    (cache : StringCache Bool) :
    (shouldExcludePropertyForOperation p dtoType
      (shouldExcludePropertyForOperation p dtoType cache).2).1
    = (shouldExcludePropertyForOperation p dtoType cache).1 := by
  unfold shouldExcludePropertyForOperation
  cases hg : getStringCache cache (shouldExcludeKey p dtoType) with
  | some v => simp only [hg]
  | none =>
    simp only [hg]
    rw [getStringCache_setStringCache]
    simp

theorem extractEnum_idem (p : PropertyDecl) (cache : StringCache (Option String)) :
    (extractEnumTypeFromDecorator p (extractEnumTypeFromDecorator p cache).2).1
    = (extractEnumTypeFromDecorator p cache).1 := by
  unfold extractEnumTypeFromDecorator
  cases hg : getStringCache cache (extractEnumKey p) with
  | some v => simp only [hg]
  | none =>
    simp only [hg]
    rw [getStringCache_setStringCache]
    simp

/-- Interpretation of a cached relation-resolution value: a cached name is
re-looked-up in the current registry, a cached null yields null. -/
def cachedInterp (reg : EntityRegistry) (v : Option String) : Option ClassDecl :=
  match v with
  | some n => regLookup reg n
  | none => none

theorem resolveRelation_hit (dec : Decorator) (p : PropertyDecl)
    (reg : EntityRegistry) (cache : StringCache (Option String))
    (v : Option String)
    (hg : getStringCache cache (resolveRelationKey dec p) = some v) :
    resolveRelationEntityTypeWithRegistry dec p reg cache
      = (cachedInterp reg v, cache) := by
  cases v with
  | some n =>
    unfold resolveRelationEntityTypeWithRegistry
    simp only []
    rw [hg]
    rfl
  | none =>
    unfold resolveRelationEntityTypeWithRegistry
    simp only []
    rw [hg]
    rfl

theorem resolveRelation_miss_stores (dec : Decorator) (p : PropertyDecl)
    (reg : EntityRegistry) (cache : StringCache (Option String))
    (hnd : (reg.map Prod.fst).Nodup)
    (hg : getStringCache cache (resolveRelationKey dec p) = none) :
    ∃ v, getStringCache (resolveRelationEntityTypeWithRegistry dec p reg cache).2
          (resolveRelationKey dec p) = some v
      ∧ cachedInterp reg v
          = (resolveRelationEntityTypeWithRegistry dec p reg cache).1 := by
  unfold resolveRelationEntityTypeWithRegistry
  simp only []
  rw [hg]
  cases hh : dec.args.head? with
  | some firstArgNode =>
    simp only []
    cases ht : findThunkCapture firstArgNode.text.toList with
    | some cap =>
      simp only []
      refine ⟨if (regLookup reg (⟨cap⟩ : String)).isSome then some ⟨cap⟩ else none,
        ?_, ?_⟩
      · rw [getStringCache_setStringCache]
        simp
      · cases hr : regLookup reg (⟨cap⟩ : String) with
        | some c => simp [cachedInterp, hr]
        | none => simp [cachedInterp, hr]
    | none =>
      simp only []
      by_cases hb : ("\x7b".toList.isPrefixOf firstArgNode.text.toList
          && "\x7d".toList.isSuffixOf firstArgNode.text.toList) = true
      · rw [if_pos hb]
        cases hrc : (inferEntityTypeFromPropertyTypeWithRegistry p reg cache).1 with
        | some cls =>
          simp only [hrc]
          obtain ⟨n, hfk, hlk⟩ := regFindKey_round hnd (infer_result_mem hrc)
          refine ⟨some n, ?_, ?_⟩
          · rw [hfk, getStringCache_setStringCache]
            simp
          · simp [cachedInterp, hlk, hrc]
        | none =>
          simp only [hrc]
          refine ⟨none, ?_, ?_⟩
          · rw [getStringCache_setStringCache]
            simp
          · simp [cachedInterp]
      · rw [if_neg hb]
        refine ⟨none, ?_, ?_⟩
        · rw [getStringCache_setStringCache]
          simp
        · simp [cachedInterp]
  | none =>
    simp only []
    cases hrc : (inferEntityTypeFromPropertyTypeWithRegistry p reg cache).1 with
    | some cls =>
      simp only [hrc]
      obtain ⟨n, hfk, hlk⟩ := regFindKey_round hnd (infer_result_mem hrc)
      refine ⟨some n, ?_, ?_⟩
      · rw [hfk, getStringCache_setStringCache]
        simp
      · simp [cachedInterp, hlk, hrc]
    | none =>
      simp only [hrc]
      refine ⟨none, ?_, ?_⟩
      · rw [getStringCache_setStringCache]
        simp
      · simp [cachedInterp]

theorem resolveRelation_idem (dec : Decorator) (p : PropertyDecl)
    (reg : EntityRegistry) (cache : StringCache (Option String))
    (hnd : (reg.map Prod.fst).Nodup) :
    (resolveRelationEntityTypeWithRegistry dec p reg
      (resolveRelationEntityTypeWithRegistry dec p reg cache).2).1
    = (resolveRelationEntityTypeWithRegistry dec p reg cache).1 := by
  cases hg : getStringCache cache (resolveRelationKey dec p) with
  | some v =>
    have h1 := resolveRelation_hit dec p reg cache v hg
    have h2 : (resolveRelationEntityTypeWithRegistry dec p reg cache).2 = cache := by
      rw [h1]
    rw [h2]
  | none =>
    obtain ⟨v, hv, hinterp⟩ := resolveRelation_miss_stores dec p reg cache hnd hg
    have h1 := resolveRelation_hit dec p reg
      (resolveRelationEntityTypeWithRegistry dec p reg cache).2 v hv
    rw [h1]
    exact hinterp

/-- Counterexample to C4 as stated: the exclusion cache key is built from the
property name and operation only, so a cache populated by a prior call on a
*different* property with the same name changes the result — with an empty
cache the undecorated property resolves to `false`, but with the cache left
by a same-named property annotated `exclude: true` it resolves to `true`. -/
theorem c4_counterexample_cache_collision :
    (shouldExcludePropertyForOperation (mkProp "description" 42) "update" []).1 = false
    ∧ (shouldExcludePropertyForOperation (mkProp "description" 42) "update"
        (shouldExcludePropertyForOperation (c6Prop (c6DecBool true)) "update" []).2).1
      = true := by
  exact ⟨by decide, by decide⟩

/-- Amendment of C4: cache keys identify inputs only up to property name
(plus operation or decorator text), so purity against arbitrary cache
contents fails; what does hold is idempotence — calling the same resolver
twice with identical inputs, threading the cache, returns an equal result
(for relation resolution, over a registry with distinct names, as built by
`createEntityRegistry`). -/
theorem c4_resolver_idempotence :
    (∀ (p : PropertyDecl) (dtoType : String) (cache : StringCache Bool),
      (shouldExcludePropertyForOperation p dtoType
        (shouldExcludePropertyForOperation p dtoType cache).2).1
      = (shouldExcludePropertyForOperation p dtoType cache).1)
    ∧ (∀ (p : PropertyDecl) (cache : StringCache (Option String)),
      (extractEnumTypeFromDecorator p (extractEnumTypeFromDecorator p cache).2).1
      = (extractEnumTypeFromDecorator p cache).1)
    ∧ (∀ (dec : Decorator) (p : PropertyDecl) (reg : EntityRegistry)
        (cache : StringCache (Option String)),
      (reg.map Prod.fst).Nodup →
      (resolveRelationEntityTypeWithRegistry dec p reg
        (resolveRelationEntityTypeWithRegistry dec p reg cache).2).1
      = (resolveRelationEntityTypeWithRegistry dec p reg cache).1) :=
  ⟨shouldExclude_idem, extractEnum_idem,
   fun dec p reg cache hnd => resolveRelation_idem dec p reg cache hnd⟩

/-- Witness for the C4 amendment at concrete inputs for all three
resolvers. -/
theorem c4_resolver_idempotence_witness :
    ((c2Registry.map Prod.fst).Nodup)
    ∧ (shouldExcludePropertyForOperation (c6Prop (c6DecBool true)) "update"
        (shouldExcludePropertyForOperation (c6Prop (c6DecBool true)) "update" []).2).1
      = (shouldExcludePropertyForOperation (c6Prop (c6DecBool true)) "update" []).1
    ∧ (extractEnumTypeFromDecorator (mkProp "e" 1)
        (extractEnumTypeFromDecorator (mkProp "e" 1) []).2).1
      = (extractEnumTypeFromDecorator (mkProp "e" 1) []).1
    ∧ (resolveRelationEntityTypeWithRegistry c2Decorator c2Property c2Registry
        (resolveRelationEntityTypeWithRegistry c2Decorator c2Property c2Registry []).2).1
      = (resolveRelationEntityTypeWithRegistry c2Decorator c2Property c2Registry []).1 :=
  ⟨by decide,
   c4_resolver_idempotence.1 (c6Prop (c6DecBool true)) "update" [],
   c4_resolver_idempotence.2.1 (mkProp "e" 1) [],
   c4_resolver_idempotence.2.2 c2Decorator c2Property c2Registry [] (by decide)⟩

/-! ## FieldPolicyResolver, nullability (`checkPropertyNullable`,
check-property-nullable.ts lines 6-74). -/

/-- Inner object-property loop of the decorator scan: the first `nullable`
property assignment that has an initializer decides by comparing the
initializer text to `true` (the function returns there); a `nullable`
assignment with no initializer is skipped. -/
def scanObjProps : List ObjProp → Option Bool
  | [] => none
  | op :: rest =>
    if op.kindName == "PropertyAssignment" && op.name == "nullable" then
      match op.initializer with
      | some initializerText => some (initializerText == "true")
      | none => scanObjProps rest
    else scanObjProps rest

/-- Argument loop of the decorator scan: only object-literal arguments are
inspected. -/
def scanArgs : List DecoratorArg → Option Bool
  | [] => none
  | arg :: rest =>
    if arg.kindName == "ObjectLiteralExpression" then
      match scanObjProps arg.props with
      | some b => some b
      | none => scanArgs rest
    else scanArgs rest

/-- Decorator loop of the scan for a `nullable:` option. -/
def scanDecorators : List Decorator → Option Bool
  | [] => none
  | d :: rest =>
    match scanArgs d.args with
    | some b => some b
    | none => scanDecorators rest

/-- Translation of `checkPropertyNullable`: question token, then the type
node's text (substring check, the union-part re-check, the type-reference
re-check), then the decorator scan, else false. -/
def checkPropertyNullable (property : PropertyDecl) : Bool :=
  if property.hasQuestionToken then true
  else
    match property.typeNode with
    | some typeNode =>
      let typeText := typeNode.text
      if hasSubstr typeText.toList "null".toList
          || hasSubstr typeText.toList "undefined".toList then true
      else if typeNode.kindName == "UnionType"
          && ((splitPipe typeText.toList).map trimChars).any
              (fun part => part == "null".toList || part == "undefined".toList) then
        true
      else if typeNode.kindName == "TypeReference"
          && (hasSubstr typeText.toList "null".toList
              || hasSubstr typeText.toList "undefined".toList) then
        true
      else (scanDecorators property.decorators).getD false
    | none => (scanDecorators property.decorators).getD false

/-- Formalisation of C7's reading of the specification: nullability is the
plain union of three independent signals, signal (c) being the presence of
*any* `nullable: true` decorator option. -/
def specNullableUnion (property : PropertyDecl) : Bool :=
  property.hasQuestionToken
  || (match property.typeNode with
      | some tn => hasSubstr tn.text.toList "null".toList
          || hasSubstr tn.text.toList "undefined".toList
      | none => false)
  || property.decorators.any (fun d => d.args.any (fun a =>
      a.kindName == "ObjectLiteralExpression" && a.props.any (fun op =>
        op.kindName == "PropertyAssignment" && op.name == "nullable"
          && op.initializer == some "true")))

/-- Decorator with a single object-literal argument carrying
`nullable: <initializer>`. -/
def c7Dec (initializer : String) : Decorator :=
  ⟨"Property", [⟨"ObjectLiteralExpression", "",
    [⟨"PropertyAssignment", "nullable", some initializer⟩]⟩], ""⟩

/-- Property with no question token, type text `string`, and two decorators:
`nullable: false` first, `nullable: true` second. -/
def c7Prop : PropertyDecl :=
  ⟨"p", false, some ⟨"string", "StringKeyword"⟩,
   [c7Dec "false", c7Dec "true"], plainTy, 0⟩

/-- Counterexample to C7 as stated: with decorators `{nullable: false}` then
`{nullable: true}` (and no other signal), a `nullable: true` option is
present, so the claimed three-signal union is true, but the code returns the
first `nullable` initializer found and yields false. -/
theorem c7_counterexample_nullable_first_wins :
    checkPropertyNullable c7Prop = false
    ∧ specNullableUnion c7Prop = true
    ∧ checkPropertyNullable c7Prop ≠ specNullableUnion c7Prop := by
  exact ⟨by decide, by decide, by decide⟩

theorem hasSubstr_iff_within (hay needle : List Char) :
    hasSubstr hay needle = true ↔ needle <:+: hay := by
  induction hay with
  | nil => simp [hasSubstr, List.isEmpty_iff, List.infix_nil]
  | cons c cs ih =>
    rw [hasSubstr_cons, Bool.or_eq_true, List.isPrefixOf_iff_prefix, ih,
      List.infix_cons_iff]

theorem splitPipe_pieces (l : List Char) :
    ∃ p rest, splitPipe l = p :: rest ∧ p <+: l ∧ ∀ q ∈ rest, q <:+: l := by
  induction l with
  | nil => exact ⟨[], [], rfl, List.nil_prefix, by simp⟩
  | cons c cs ih =>
    obtain ⟨p, rest, heq, hpre, hrest⟩ := ih
    by_cases hc : (c == '|') = true
    · refine ⟨[], splitPipe cs, ?_, List.nil_prefix, ?_⟩
      · conv_lhs => rw [splitPipe]
        simp [hc]
      · intro q hq
        rw [heq] at hq
        rcases List.mem_cons.mp hq with h | h
        · subst h
          exact List.infix_cons hpre.isInfix
        · exact List.infix_cons (hrest q h)
    · refine ⟨c :: p, rest, ?_, List.cons_prefix_cons.mpr ⟨rfl, hpre⟩, ?_⟩
      · conv_lhs => rw [splitPipe]
        simp only [heq, hc, Bool.false_eq_true, if_false]
      · intro q hq
        exact List.infix_cons (hrest q hq)

theorem splitPipe_within (l part : List Char) (h : part ∈ splitPipe l) :
    part <:+: l := by
  obtain ⟨p, rest, heq, hpre, hrest⟩ := splitPipe_pieces l
  rw [heq] at h
  rcases List.mem_cons.mp h with h | h
  · subst h
    exact hpre.isInfix
  · exact hrest part h

theorem trimChars_within (l : List Char) : trimChars l <:+: l := by
  unfold trimChars
  have h1 : l.dropWhile isWsChar <:+ l := List.dropWhile_suffix _
  have h2 : (l.dropWhile isWsChar).reverse.dropWhile isWsChar
      <:+ (l.dropWhile isWsChar).reverse := List.dropWhile_suffix _
  have h3 := List.reverse_prefix.mpr h2
  rw [List.reverse_reverse] at h3
  exact h3.isInfix.trans h1.isInfix

/-- Amendment of C7: nullability is the union of (a) the question token and
(b) the type text containing `null`/`undefined` with a third signal (c')
that is *not* "some `nullable: true` option is present" but "the first
`nullable` option with an initializer (in decorator/argument/property order)
has initializer text exactly `true`"; the source's union-member and
type-reference re-checks are subsumed by (b) and never fire on their own. -/
theorem c7_nullability_signals (property : PropertyDecl) :
    checkPropertyNullable property
      = (property.hasQuestionToken
        || (match property.typeNode with
            | some tn => hasSubstr tn.text.toList "null".toList
                || hasSubstr tn.text.toList "undefined".toList
            | none => false)
        || (scanDecorators property.decorators).getD false) := by
  unfold checkPropertyNullable
  cases hq : property.hasQuestionToken with
  | true => simp
  | false =>
    simp only [Bool.false_eq_true, if_false, Bool.false_or]
    cases htn : property.typeNode with
    | none => simp
    | some tn =>
      simp only []
      by_cases hsub : (hasSubstr tn.text.toList "null".toList
          || hasSubstr tn.text.toList "undefined".toList) = true
      · rw [hsub]
        simp
      · have hsub' := Bool.eq_false_iff.mpr hsub
        rw [Bool.or_eq_false_iff] at hsub'
        have hany : (((splitPipe tn.text.toList).map trimChars).any
            (fun part => part == "null".toList || part == "undefined".toList))
            = false := by
          rw [Bool.eq_false_iff]
          intro hcontra
          rw [List.any_eq_true] at hcontra
          obtain ⟨part, hpart, hp⟩ := hcontra
          rcases List.mem_map.mp hpart with ⟨piece, hpiece, rfl⟩
          have hinf : trimChars piece <:+: tn.text.toList :=
            (trimChars_within piece).trans (splitPipe_within _ _ hpiece)
          rcases Bool.or_eq_true_iff.mp hp with h | h
          · have heqn : trimChars piece = "null".toList := by simpa using h
            rw [heqn] at hinf
            have hh := (hasSubstr_iff_within _ _).mpr hinf
            rw [hsub'.1] at hh
            exact absurd hh (by decide)
          · have heqn : trimChars piece = "undefined".toList := by simpa using h
            rw [heqn] at hinf
            have hh := (hasSubstr_iff_within _ _).mpr hinf
            rw [hsub'.2] at hh
            exact absurd hh (by decide)
        rw [hsub'.1, hsub'.2, hany]
        simp only [Bool.or_false, Bool.and_false, Bool.false_eq_true, if_false,
          Bool.false_or]

/-! ## GenerationScheduler (`generateDtosInParallel`,
parallel-dto-generator.ts lines 16-163).

The four generator functions are dynamically imported and their effects lie
outside this module; each entity × kind sub-task's outcome is modelled by an
oracle `gen : String → GenKind → Except String Unit` (the error carries the
thrown error's message, as read by `error.message` in the catch).  Within an
entity's task all requested sub-task promises are created before the
`Promise.all` join, so each one runs to completion (promises are not
cancelled) and its artifact is produced in the in-memory project regardless
of sibling failures; the join rejects with the first failing sub-task's
error — in this deterministic model, first in the code's construction order
(dto, create-dto, update-dto, find-many-dto).  Console output is modelled as
the lists of the emitted format strings. -/

/-- The four generator kinds the scheduler drives. -/
inductive GenKind where
  | dto
  | createDto
  | updateDto
  | findManyDto
  deriving DecidableEq, Repr

/-- The label of a generator kind (the `GeneratorType` string). -/
def kindLabel : GenKind → String
  | .dto => "dto"
  | .createDto => "create-dto"
  | .updateDto => "update-dto"
  | .findManyDto => "find-many-dto"

/-- The scheduler's options (the four generate flags and the concurrency
limit; the source defaults all flags to true and the limit to 4). -/
structure RunOptions where
  generateDto : Bool
  generateCreateDto : Bool
  generateUpdateDto : Bool
  generateFindManyDto : Bool
  concurrencyLimit : Nat
  deriving DecidableEq, Repr

/-- The kinds requested by the options, in the order in which the source
pushes the corresponding promises onto `dtoPromises`. -/
def requestedKinds (opts : RunOptions) : List GenKind :=
  (if opts.generateDto then [GenKind.dto] else [])
    ++ (if opts.generateCreateDto then [GenKind.createDto] else [])
    ++ (if opts.generateUpdateDto then [GenKind.updateDto] else [])
    ++ (if opts.generateFindManyDto then [GenKind.findManyDto] else [])

/-- One per-entity record of the scheduler's `results` array. -/
structure EntityResult where
  success : Bool
  entity : String
  error : Option String
  deriving DecidableEq, Repr

/-- Translation of `isEntityClass` (is-entity-class module): any decorator
named `Entity`. -/
def isEntityClass (classDeclaration : ClassDecl) : Bool :=
  classDeclaration.decoratorNames.any (fun d => d == "Entity")

/-- The entity-collection loop at the top of `generateDtosInParallel`: all
entity classes with a JS-truthy name, in source-file/class order. -/
def collectEntities (sourceFiles : List SrcFile) : List String :=
  sourceFiles.flatMap (fun file => file.classes.filterMap (fun c =>
    if isEntityClass c then
      match c.name with
      | some className => if className == "" then none else some className
      | none => none
    else none))

/-- The batching loop `for (i = 0; i < n; i += concurrencyLimit)
batch = entities.slice(i, i + concurrencyLimit)`: consecutive chunks, for a
positive limit (with limit 0 the source's loop would not terminate; the
`0, l ↦ [l]` equation below is never exercised by the theorems, which assume
a positive limit as the configuration contract does). -/
def chunkListGo {α : Type} : Nat → Nat → List α → List (List α)
  | _, _, [] => []
  | _, 0, x :: xs => [x :: xs]
  | 0, _ + 1, x :: xs => [x :: xs]
  | n + 1, fuel + 1, x :: xs =>
    ((x :: xs).take (n + 1)) :: chunkListGo (n + 1) fuel ((x :: xs).drop (n + 1))

def chunkList {α : Type} (n : Nat) (l : List α) : List (List α) :=
  chunkListGo n l.length l

/-- One entity's task: every requested kind's sub-task runs (producing its
artifact exactly when it succeeds); the `Promise.all` join fails with the
first failing sub-task's error, caught by the per-entity catch which records
`{success: false, entity, error: error.message}`; otherwise
`{success: true, entity}` is recorded. -/
def processEntity (gen : String → GenKind → Except String Unit)
    (opts : RunOptions) (className : String) :
    EntityResult × List (String × GenKind) :=
  let kinds := requestedKinds opts
  let artifacts := kinds.filterMap (fun k =>
    match gen className k with
    | .ok _ => some (className, k)
    | .error _ => none)
  match (kinds.filterMap (fun k =>
      match gen className k with
      | .error e => some e
      | .ok _ => none)).head? with
  | none => (⟨true, className, none⟩, artifacts)
  | some e => (⟨false, className, some e⟩, artifacts)

/-- The batches, each processed entirely (the batch's `Promise.all` keeps
the batch's result order equal to its entity order). -/
def runProcessed (gen : String → GenKind → Except String Unit)
    (opts : RunOptions) (sourceFiles : List SrcFile) :
    List (List (EntityResult × List (String × GenKind))) :=
  (chunkList opts.concurrencyLimit (collectEntities sourceFiles)).map
    (fun batch => batch.map (processEntity gen opts))

/-- The scheduler's `results` array after all batches. -/
def runResults (gen : String → GenKind → Except String Unit)
    (opts : RunOptions) (sourceFiles : List SrcFile) : List EntityResult :=
  ((runProcessed gen opts sourceFiles).flatten).map Prod.fst

/-- All artifacts produced by completed generator sub-tasks. -/
def runArtifacts (gen : String → GenKind → Except String Unit)
    (opts : RunOptions) (sourceFiles : List SrcFile) :
    List (String × GenKind) :=
  (((runProcessed gen opts sourceFiles).flatten).map Prod.snd).flatten

/-- The scheduler's `failedResults` filter. -/
def failedResults (gen : String → GenKind → Except String Unit)
    (opts : RunOptions) (sourceFiles : List SrcFile) : List EntityResult :=
  (runResults gen opts sourceFiles).filter (fun r => !r.success)

/-- One line of the final failure report: `  - ${result.entity}: ${result.error}`. -/
def failLine (r : EntityResult) : String :=
  "  - " ++ r.entity ++ ": " ++ r.error.getD "undefined"

/-- The whole observable outcome of a run: the per-entity records, the
artifacts produced, the per-entity catch log, the final failure report, the
raised aggregate error (none on success), and whether `project.save()` was
reached. -/
structure RunOutput where
  results : List EntityResult
  artifacts : List (String × GenKind)
  midRunLog : List String
  reportLines : List String
  thrown : Option String
  saved : Bool
  deriving DecidableEq, Repr

/-- Translation of `generateDtosInParallel`: collect the entities, process
them batch by batch, then — only after every batch — report and raise a
single aggregate error when any failure was recorded (skipping the project
save), else save the project and return normally. -/
def generateDtosInParallel (gen : String → GenKind → Except String Unit)
    (opts : RunOptions) (sourceFiles : List SrcFile) : RunOutput :=
  let results := runResults gen opts sourceFiles
  let failed := failedResults gen opts sourceFiles
  let midRunLog := failed.map (fun r =>
    "[ERROR] Failed to generate DTOs for entity '" ++ r.entity ++ "':")
  if failed.isEmpty then
    ⟨results, runArtifacts gen opts sourceFiles, midRunLog, [], none, true⟩
  else
    ⟨results, runArtifacts gen opts sourceFiles, midRunLog,
      ("[ERROR] Failed to process " ++ toString failed.length ++ " entities:")
        :: failed.map failLine,
      some ("Failed to process " ++ toString failed.length ++ " entities"),
      false⟩

theorem chunkListGo_nil {α : Type} (n f : Nat) :
    chunkListGo n f ([] : List α) = [] := by
  cases n <;> cases f <;> rfl

theorem chunkListGo_fuel {α : Type} (n : Nat) :
    ∀ (f1 f2 : Nat) (l : List α), l.length ≤ f1 → l.length ≤ f2 →
      chunkListGo n f1 l = chunkListGo n f2 l := by
  intro f1
  induction f1 with
  | zero =>
    intro f2 l h1 h2
    have hnil : l = [] := by
      cases l with
      | nil => rfl
      | cons a as => simp at h1
    subst hnil
    rw [chunkListGo_nil, chunkListGo_nil]
  | succ g1 ih =>
    intro f2 l h1 h2
    cases l with
    | nil => rw [chunkListGo_nil, chunkListGo_nil]
    | cons x xs =>
      cases f2 with
      | zero => simp at h2
      | succ g2 =>
        cases n with
        | zero => rfl
        | succ m =>
          show ((x :: xs).take (m + 1)) :: chunkListGo (m + 1) g1 ((x :: xs).drop (m + 1))
            = ((x :: xs).take (m + 1)) :: chunkListGo (m + 1) g2 ((x :: xs).drop (m + 1))
          refine congrArg _ (ih g2 ((x :: xs).drop (m + 1)) ?_ ?_) <;>
            (rw [List.length_drop]
             simp only [List.length_cons] at h1 h2 ⊢
             omega)

theorem chunkList_nil {α : Type} (n : Nat) : chunkList (α := α) n [] = [] := by
  cases n <;> rfl

theorem chunkList_cons {α : Type} (n : Nat) (x : α) (xs : List α) :
    chunkList (n + 1) (x :: xs)
      = ((x :: xs).take (n + 1)) :: chunkList (n + 1) ((x :: xs).drop (n + 1)) := by
  show chunkListGo (n + 1) (x :: xs).length (x :: xs)
    = ((x :: xs).take (n + 1))
      :: chunkListGo (n + 1) (((x :: xs).drop (n + 1)).length) ((x :: xs).drop (n + 1))
  rw [show chunkListGo (n + 1) (x :: xs).length (x :: xs)
      = ((x :: xs).take (n + 1)) :: chunkListGo (n + 1) xs.length ((x :: xs).drop (n + 1))
    from rfl]
  refine congrArg _ (chunkListGo_fuel (n + 1) xs.length
    (((x :: xs).drop (n + 1)).length) ((x :: xs).drop (n + 1)) ?_ (Nat.le_refl _))
  rw [List.length_drop]
  simp only [List.length_cons]
  omega

theorem chunkList_flatten_aux {α : Type} (n : Nat) (hpos : 0 < n) :
    ∀ (fuel : Nat) (l : List α), l.length ≤ fuel → (chunkList n l).flatten = l := by
  intro fuel
  induction fuel with
  | zero =>
    intro l hl
    have : l = [] := by
      cases l with
      | nil => rfl
      | cons x xs => simp at hl
    subst this
    rw [chunkList_nil]
    rfl
  | succ k ih =>
    intro l hl
    cases l with
    | nil =>
      rw [chunkList_nil]
      rfl
    | cons x xs =>
      cases n with
      | zero => exact absurd hpos (by simp)
      | succ m =>
        rw [chunkList_cons, List.flatten_cons, ih ((x :: xs).drop (m + 1)) ?hlen,
          List.take_append_drop]
        case hlen =>
          rw [List.length_drop]
          simp only [List.length_cons] at hl ⊢
          omega

theorem chunkList_flatten {α : Type} (n : Nat) (hpos : 0 < n) (l : List α) :
    (chunkList n l).flatten = l :=
  chunkList_flatten_aux n hpos l.length l (Nat.le_refl _)

theorem chunkList_batch_le_aux {α : Type} (n : Nat) (hpos : 0 < n) :
    ∀ (fuel : Nat) (l : List α), l.length ≤ fuel →
      ∀ b ∈ chunkList n l, b.length ≤ n := by
  intro fuel
  induction fuel with
  | zero =>
    intro l hl b hb
    have : l = [] := by
      cases l with
      | nil => rfl
      | cons x xs => simp at hl
    subst this
    rw [chunkList_nil] at hb
    cases hb
  | succ k ih =>
    intro l hl b hb
    cases l with
    | nil =>
      rw [chunkList_nil] at hb
      cases hb
    | cons x xs =>
      cases n with
      | zero => exact absurd hpos (by simp)
      | succ m =>
        rw [chunkList_cons] at hb
        rcases List.mem_cons.mp hb with h | h
        · subst h
          rw [List.length_take]
          exact Nat.min_le_left _ _
        · refine ih ((x :: xs).drop (m + 1)) ?_ b h
          rw [List.length_drop]
          simp only [List.length_cons] at hl ⊢
          omega

theorem processEntity_fst_entity (gen : String → GenKind → Except String Unit)
    (opts : RunOptions) (e : String) :
    (processEntity gen opts e).1.entity = e := by
  unfold processEntity
  simp only []
  cases ((requestedKinds opts).filterMap (fun k =>
      match gen e k with
      | .error e' => some e'
      | .ok _ => none)).head? <;> rfl

theorem runResults_map_entity (gen : String → GenKind → Except String Unit)
    (opts : RunOptions) (sourceFiles : List SrcFile)
    (hpos : 0 < opts.concurrencyLimit) :
    (runResults gen opts sourceFiles).map EntityResult.entity
      = collectEntities sourceFiles := by
  unfold runResults runProcessed
  rw [← List.map_flatten, chunkList_flatten _ hpos, List.map_map, List.map_map]
  have hc : ∀ e ∈ collectEntities sourceFiles,
      ((EntityResult.entity ∘ Prod.fst) ∘ processEntity gen opts) e = id e :=
    fun e _ => processEntity_fst_entity gen opts e
  rw [List.map_congr_left hc, List.map_id]

/-- C5: the scheduler splits the collected entity list into consecutive
batches of size at most `concurrencyLimit` in enumeration order (their
concatenation is the entity list); it never raises mid-run — every entity
yields a result record, in order, regardless of failures; after all batches
it raises exactly one aggregate error iff any failure was recorded, whose
report enumerates every failed entity with its error message; otherwise it
returns success (nothing raised, project saved). -/
theorem c5_scheduler_batches_and_aggregate
    (gen : String → GenKind → Except String Unit) (opts : RunOptions)
    (sourceFiles : List SrcFile) (hpos : 0 < opts.concurrencyLimit) :
    ((chunkList opts.concurrencyLimit (collectEntities sourceFiles)).flatten
        = collectEntities sourceFiles
      ∧ ∀ b ∈ chunkList opts.concurrencyLimit (collectEntities sourceFiles),
          b.length ≤ opts.concurrencyLimit)
    ∧ (generateDtosInParallel gen opts sourceFiles).results.map EntityResult.entity
        = collectEntities sourceFiles
    ∧ ((generateDtosInParallel gen opts sourceFiles).thrown
        = if (failedResults gen opts sourceFiles).isEmpty then none
          else some ("Failed to process "
            ++ toString (failedResults gen opts sourceFiles).length ++ " entities"))
    ∧ (∀ r ∈ (generateDtosInParallel gen opts sourceFiles).results,
        r.success = false →
        failLine r ∈ (generateDtosInParallel gen opts sourceFiles).reportLines)
    ∧ ((failedResults gen opts sourceFiles).isEmpty = true →
        (generateDtosInParallel gen opts sourceFiles).thrown = none
          ∧ (generateDtosInParallel gen opts sourceFiles).saved = true) := by
  refine ⟨⟨chunkList_flatten _ hpos _,
    fun b hb => chunkList_batch_le_aux _ hpos _ _ (Nat.le_refl _) b hb⟩, ?_, ?_, ?_, ?_⟩
  all_goals unfold generateDtosInParallel
  all_goals by_cases hF : (failedResults gen opts sourceFiles).isEmpty = true
  · simp only [hF, if_true]
    exact runResults_map_entity gen opts sourceFiles hpos
  · simp only [hF, Bool.false_eq_true, if_false]
    exact runResults_map_entity gen opts sourceFiles hpos
  · simp [hF]
  · simp [hF]
  · simp only [hF, if_true]
    intro r hr hfail
    have : r ∈ failedResults gen opts sourceFiles :=
      List.mem_filter.mpr ⟨hr, by simp [hfail]⟩
    rw [List.isEmpty_iff.mp hF] at this
    cases this
  · simp only [hF, Bool.false_eq_true, if_false]
    intro r hr hfail
    have hmem : r ∈ failedResults gen opts sourceFiles :=
      List.mem_filter.mpr ⟨hr, by simp [hfail]⟩
    exact List.mem_cons_of_mem _ (List.mem_map.mpr ⟨r, hmem, rfl⟩)
  · simp [hF]
  · simp [hF]

def c5Gen : String → GenKind → Except String Unit := fun e k =>
  if e == "B" && k == GenKind.createDto then Except.error "boom" else Except.ok ()

def c5Opts : RunOptions := ⟨true, true, true, true, 2⟩

def c5Files : List SrcFile :=
  [⟨[⟨some "A", ["Entity"], 1⟩, ⟨some "B", ["Entity"], 2⟩]⟩,
   ⟨[⟨some "C", ["Entity"], 3⟩]⟩]

theorem c5_scheduler_batches_and_aggregate_witness :
    0 < c5Opts.concurrencyLimit
    ∧ (((chunkList c5Opts.concurrencyLimit (collectEntities c5Files)).flatten
          = collectEntities c5Files
        ∧ ∀ b ∈ chunkList c5Opts.concurrencyLimit (collectEntities c5Files),
            b.length ≤ c5Opts.concurrencyLimit)
      ∧ (generateDtosInParallel c5Gen c5Opts c5Files).results.map EntityResult.entity
          = collectEntities c5Files
      ∧ ((generateDtosInParallel c5Gen c5Opts c5Files).thrown
          = if (failedResults c5Gen c5Opts c5Files).isEmpty then none
            else some ("Failed to process "
              ++ toString (failedResults c5Gen c5Opts c5Files).length ++ " entities"))
      ∧ (∀ r ∈ (generateDtosInParallel c5Gen c5Opts c5Files).results,
          r.success = false →
          failLine r ∈ (generateDtosInParallel c5Gen c5Opts c5Files).reportLines)
      ∧ ((failedResults c5Gen c5Opts c5Files).isEmpty = true →
          (generateDtosInParallel c5Gen c5Opts c5Files).thrown = none
            ∧ (generateDtosInParallel c5Gen c5Opts c5Files).saved = true)) :=
  ⟨by decide, c5_scheduler_batches_and_aggregate c5Gen c5Opts c5Files (by decide)⟩

theorem requestedKinds_nodup (opts : RunOptions) : (requestedKinds opts).Nodup := by
  rcases opts with ⟨b1, b2, b3, b4, n⟩
  have h : requestedKinds ⟨b1, b2, b3, b4, n⟩ = requestedKinds ⟨b1, b2, b3, b4, 0⟩ := rfl
  rw [h]
  cases b1 <;> cases b2 <;> cases b3 <;> cases b4 <;> decide

theorem filterMap_err_nil (gen : String → GenKind → Except String Unit) (e : String)
    (l : List GenKind) (h : ∀ k ∈ l, gen e k = Except.ok ()) :
    l.filterMap (fun k =>
      match gen e k with
      | .error e' => some e'
      | .ok _ => none) = [] := by
  induction l with
  | nil => rfl
  | cons k ks ih =>
    rw [List.filterMap_cons, h k (List.mem_cons_self k ks)]
    exact ih (fun k' hk' => h k' (List.mem_cons_of_mem _ hk'))

theorem filterMap_ok_map (gen : String → GenKind → Except String Unit) (e : String)
    (l : List GenKind) (h : ∀ k ∈ l, gen e k = Except.ok ()) :
    l.filterMap (fun k =>
      match gen e k with
      | .ok _ => some (e, k)
      | .error _ => none) = l.map (fun k => (e, k)) := by
  induction l with
  | nil => rfl
  | cons k ks ih =>
    rw [List.filterMap_cons, h k (List.mem_cons_self k ks), List.map_cons]
    rw [ih (fun k' hk' => h k' (List.mem_cons_of_mem _ hk'))]

theorem processEntity_all_ok (gen : String → GenKind → Except String Unit)
    (opts : RunOptions) (e : String)
    (h : ∀ k ∈ requestedKinds opts, gen e k = Except.ok ()) :
    processEntity gen opts e
      = (⟨true, e, none⟩, (requestedKinds opts).map (fun k => (e, k))) := by
  unfold processEntity
  simp only []
  rw [filterMap_err_nil gen e _ h, filterMap_ok_map gen e _ h]
  rfl

theorem filterMap_err_single (gen : String → GenKind → Except String Unit)
    (e : String) (kStar : GenKind) (msg : String)
    (hfail : gen e kStar = Except.error msg)
    (hok : ∀ k, k ≠ kStar → gen e k = Except.ok ()) :
    ∀ l : List GenKind, kStar ∈ l → l.Nodup →
      l.filterMap (fun k =>
        match gen e k with
        | .error e' => some e'
        | .ok _ => none) = [msg] := by
  intro l hmem hnd
  induction l with
  | nil => cases hmem
  | cons k ks ih =>
    rw [List.filterMap_cons]
    by_cases hk : k = kStar
    · subst hk
      rw [hfail]
      have hnot : k ∉ ks := (List.nodup_cons.mp hnd).1
      rw [filterMap_err_nil gen e ks
        (fun k' hk' => hok k' (fun hEq => hnot (hEq ▸ hk')))]
    · rw [hok k hk]
      exact ih (List.mem_of_ne_of_mem (fun hEq => hk hEq.symm) hmem)
        (List.nodup_cons.mp hnd).2

theorem filterMap_ok_filter (gen : String → GenKind → Except String Unit)
    (e : String) (kStar : GenKind) (msg : String)
    (hfail : gen e kStar = Except.error msg)
    (hok : ∀ k, k ≠ kStar → gen e k = Except.ok ()) :
    ∀ l : List GenKind,
      l.filterMap (fun k =>
        match gen e k with
        | .ok _ => some (e, k)
        | .error _ => none)
      = (l.filter (fun k => !(k == kStar))).map (fun k => (e, k)) := by
  intro l
  induction l with
  | nil => rfl
  | cons k ks ih =>
    rw [List.filterMap_cons, List.filter_cons]
    by_cases hk : k = kStar
    · subst hk
      rw [hfail]
      have hb : (k == k) = true := by simp
      rw [hb]
      simp only [Bool.not_true, Bool.false_eq_true, if_false]
      exact ih
    · rw [hok k hk]
      have hb : (k == kStar) = false := beq_eq_false_iff_ne.mpr hk
      rw [hb]
      simp only [Bool.not_false, if_true, List.map_cons]
      rw [ih]

theorem processEntity_single_fail (gen : String → GenKind → Except String Unit)
    (opts : RunOptions) (eStar : String) (kStar : GenKind) (msg : String)
    (hfail : gen eStar kStar = Except.error msg)
    (hok : ∀ k, k ≠ kStar → gen eStar k = Except.ok ())
    (hkmem : kStar ∈ requestedKinds opts) :
    processEntity gen opts eStar
      = (⟨false, eStar, some msg⟩,
          ((requestedKinds opts).filter (fun k => !(k == kStar))).map
            (fun k => (eStar, k))) := by
  unfold processEntity
  simp only []
  rw [filterMap_err_single gen eStar kStar msg hfail hok _ hkmem
    (requestedKinds_nodup opts), filterMap_ok_filter gen eStar kStar msg hfail hok]
  rfl

theorem runResults_eq_map (gen : String → GenKind → Except String Unit)
    (opts : RunOptions) (sourceFiles : List SrcFile)
    (hpos : 0 < opts.concurrencyLimit) :
    runResults gen opts sourceFiles
      = (collectEntities sourceFiles).map (fun e => (processEntity gen opts e).1) := by
  unfold runResults runProcessed
  rw [← List.map_flatten, chunkList_flatten _ hpos, List.map_map]
  rfl

theorem runArtifacts_eq (gen : String → GenKind → Except String Unit)
    (opts : RunOptions) (sourceFiles : List SrcFile)
    (hpos : 0 < opts.concurrencyLimit) :
    runArtifacts gen opts sourceFiles
      = ((collectEntities sourceFiles).map
          (fun e => (processEntity gen opts e).2)).flatten := by
  unfold runArtifacts runProcessed
  rw [← List.map_flatten, chunkList_flatten _ hpos, List.map_map]
  rfl

theorem gdp_results (gen : String → GenKind → Except String Unit)
    (opts : RunOptions) (sourceFiles : List SrcFile) :
    (generateDtosInParallel gen opts sourceFiles).results
      = runResults gen opts sourceFiles := by
  unfold generateDtosInParallel
  simp only []
  by_cases h : (failedResults gen opts sourceFiles).isEmpty = true
  · rw [if_pos h]
  · rw [if_neg h]

theorem gdp_artifacts (gen : String → GenKind → Except String Unit)
    (opts : RunOptions) (sourceFiles : List SrcFile) :
    (generateDtosInParallel gen opts sourceFiles).artifacts
      = runArtifacts gen opts sourceFiles := by
  unfold generateDtosInParallel
  simp only []
  by_cases h : (failedResults gen opts sourceFiles).isEmpty = true
  · rw [if_pos h]
  · rw [if_neg h]

theorem gdp_report_mem (gen : String → GenKind → Except String Unit)
    (opts : RunOptions) (sourceFiles : List SrcFile) (r : EntityResult)
    (hr : r ∈ failedResults gen opts sourceFiles) :
    failLine r ∈ (generateDtosInParallel gen opts sourceFiles).reportLines := by
  unfold generateDtosInParallel
  simp only []
  have hne : ¬((failedResults gen opts sourceFiles).isEmpty = true) := by
    intro h
    rw [List.isEmpty_iff.mp h] at hr
    cases hr
  rw [if_neg hne]
  exact List.mem_cons_of_mem _ (List.mem_map.mpr ⟨r, hr, rfl⟩)

/-- C3 (amended): with one failing generator sub-task (entity `eStar`,
kind `kStar`), the run completes with one result record per entity in
order; the failure is caught at the ENTITY boundary: every other entity
records full success, `eStar` records a single `{success: false, entity,
error: message}` — the recorded failure list is exactly one such record
per occurrence of `eStar` in the entity list — yet `eStar` still produces
the artifacts of its other requested kinds; the aggregate report names the
entity and the message — the generator kind appears only if the message
happens to mention it. -/
theorem c3_failure_isolation_amended
    (gen : String → GenKind → Except String Unit) (opts : RunOptions)
    (sourceFiles : List SrcFile) (eStar : String) (kStar : GenKind) (msg : String)
    (hpos : 0 < opts.concurrencyLimit)
    (hfail : gen eStar kStar = Except.error msg)
    (hok : ∀ e k, ¬(e = eStar ∧ k = kStar) → gen e k = Except.ok ())
    (hkmem : kStar ∈ requestedKinds opts) :
    (generateDtosInParallel gen opts sourceFiles).results.map EntityResult.entity
        = collectEntities sourceFiles
    ∧ (∀ e ∈ collectEntities sourceFiles, e ≠ eStar →
        (⟨true, e, none⟩ : EntityResult)
          ∈ (generateDtosInParallel gen opts sourceFiles).results)
    ∧ (eStar ∈ collectEntities sourceFiles →
        (⟨false, eStar, some msg⟩ : EntityResult)
          ∈ (generateDtosInParallel gen opts sourceFiles).results)
    ∧ (generateDtosInParallel gen opts sourceFiles).artifacts
        = (collectEntities sourceFiles).flatMap (fun e =>
            ((requestedKinds opts).filter (fun k => !(e == eStar && k == kStar))).map
              (fun k => (e, k)))
    ∧ failedResults gen opts sourceFiles
        = ((collectEntities sourceFiles).filter (fun e => e == eStar)).map
            (fun _ => (⟨false, eStar, some msg⟩ : EntityResult))
    ∧ (eStar ∈ collectEntities sourceFiles →
        ("  - " ++ eStar ++ ": " ++ msg)
          ∈ (generateDtosInParallel gen opts sourceFiles).reportLines) := by
  have hokStar : ∀ k, k ≠ kStar → gen eStar k = Except.ok () :=
    fun k hk => hok eStar k (fun h => hk h.2)
  have hkindsOk : ∀ e, e ≠ eStar → ∀ k ∈ requestedKinds opts, gen e k = Except.ok () :=
    fun e he k _ => hok e k (fun h => he h.1)
  have hPE := processEntity_single_fail gen opts eStar kStar msg hfail hokStar hkmem
  refine ⟨?_, ?_, ?_, ?_, ?_, ?_⟩
  · rw [gdp_results]
    exact runResults_map_entity gen opts sourceFiles hpos
  · intro e hmem hne
    rw [gdp_results, runResults_eq_map gen opts sourceFiles hpos]
    refine List.mem_map.mpr ⟨e, hmem, ?_⟩
    rw [processEntity_all_ok gen opts e (hkindsOk e hne)]
  · intro hmem
    rw [gdp_results, runResults_eq_map gen opts sourceFiles hpos]
    refine List.mem_map.mpr ⟨eStar, hmem, ?_⟩
    rw [hPE]
  · rw [gdp_artifacts, runArtifacts_eq gen opts sourceFiles hpos, List.flatMap_def]
    have hc : ∀ e ∈ collectEntities sourceFiles,
        (fun e => (processEntity gen opts e).2) e
          = (fun e =>
              ((requestedKinds opts).filter
                (fun k => !(e == eStar && k == kStar))).map (fun k => (e, k))) e := by
      intro e _
      simp only []
      by_cases he : e = eStar
      · subst he
        rw [hPE]
        simp only []
        have hfe : ((requestedKinds opts).filter (fun k => !(k == kStar)))
            = (requestedKinds opts).filter (fun k => !(e == e && k == kStar)) := by
          apply List.filter_congr
          intro k _
          have hb : (e == e) = true := by simp
          rw [hb, Bool.true_and]
        rw [hfe]
      · rw [processEntity_all_ok gen opts e (hkindsOk e he)]
        simp only []
        have hb : (e == eStar) = false := beq_eq_false_iff_ne.mpr he
        have hfe : (requestedKinds opts).filter
            (fun k => !(e == eStar && k == kStar)) = requestedKinds opts := by
          apply List.filter_eq_self.mpr
          intro k _
          rw [hb, Bool.false_and]
          rfl
        rw [hfe]
    rw [List.map_congr_left hc]
  · unfold failedResults
    rw [runResults_eq_map gen opts sourceFiles hpos,
      List.filter_map (fun e => (processEntity gen opts e).1) (collectEntities sourceFiles)]
    have hfc : (collectEntities sourceFiles).filter
          ((fun r => !r.success) ∘ (fun e => (processEntity gen opts e).1))
        = (collectEntities sourceFiles).filter (fun e => e == eStar) := by
      apply List.filter_congr
      intro e _
      by_cases he : e = eStar
      · subst he
        show (!(processEntity gen opts e).1.success) = (e == e)
        rw [hPE]
        simp
      · show (!(processEntity gen opts e).1.success) = (e == eStar)
        rw [processEntity_all_ok gen opts e (hkindsOk e he),
          beq_eq_false_iff_ne.mpr he]
        rfl
    rw [hfc]
    apply List.map_congr_left
    intro e he
    have heq : e = eStar := by
      have h2 := (List.mem_filter.mp he).2
      simpa using h2
    show (processEntity gen opts e).1 = (⟨false, eStar, some msg⟩ : EntityResult)
    rw [heq, hPE]
  · intro hmem
    have hrec : (⟨false, eStar, some msg⟩ : EntityResult)
        ∈ failedResults gen opts sourceFiles := by
      refine List.mem_filter.mpr ⟨?_, rfl⟩
      rw [runResults_eq_map gen opts sourceFiles hpos]
      exact List.mem_map.mpr ⟨eStar, hmem, by rw [hPE]⟩
    exact gdp_report_mem gen opts sourceFiles _ hrec

def c3wGen : String → GenKind → Except String Unit := fun e k =>
  if e = "B" ∧ k = GenKind.createDto then
    Except.error "Cannot find primary key type in entity \x27B\x27."
  else Except.ok ()

def c3wOpts : RunOptions := ⟨true, true, true, true, 4⟩

def c3wFiles : List SrcFile :=
  [⟨[⟨some "A", ["Entity"], 1⟩, ⟨some "B", ["Entity"], 2⟩,
     ⟨some "C", ["Entity"], 3⟩]⟩]

theorem c3_failure_isolation_amended_witness :
    0 < c3wOpts.concurrencyLimit
    ∧ c3wGen "B" GenKind.createDto
        = Except.error "Cannot find primary key type in entity \x27B\x27."
    ∧ (∀ e k, ¬(e = "B" ∧ k = GenKind.createDto) → c3wGen e k = Except.ok ())
    ∧ GenKind.createDto ∈ requestedKinds c3wOpts
    ∧ ((generateDtosInParallel c3wGen c3wOpts c3wFiles).results.map EntityResult.entity
          = collectEntities c3wFiles
      ∧ (∀ e ∈ collectEntities c3wFiles, e ≠ "B" →
          (⟨true, e, none⟩ : EntityResult)
            ∈ (generateDtosInParallel c3wGen c3wOpts c3wFiles).results)
      ∧ ("B" ∈ collectEntities c3wFiles →
          (⟨false, "B",
              some "Cannot find primary key type in entity \x27B\x27."⟩ : EntityResult)
            ∈ (generateDtosInParallel c3wGen c3wOpts c3wFiles).results)
      ∧ (generateDtosInParallel c3wGen c3wOpts c3wFiles).artifacts
          = (collectEntities c3wFiles).flatMap (fun e =>
              ((requestedKinds c3wOpts).filter
                (fun k => !(e == "B" && k == GenKind.createDto))).map
                (fun k => (e, k)))
      ∧ failedResults c3wGen c3wOpts c3wFiles
          = ((collectEntities c3wFiles).filter (fun e => e == "B")).map
              (fun _ => (⟨false, "B",
                some "Cannot find primary key type in entity \x27B\x27."⟩ : EntityResult))
      ∧ ("B" ∈ collectEntities c3wFiles →
          ("  - " ++ "B" ++ ": "
              ++ "Cannot find primary key type in entity \x27B\x27.")
            ∈ (generateDtosInParallel c3wGen c3wOpts c3wFiles).reportLines)) :=
  ⟨by decide, if_pos ⟨rfl, rfl⟩, fun e k h => if_neg h, by decide,
    c3_failure_isolation_amended c3wGen c3wOpts c3wFiles "B" GenKind.createDto
      "Cannot find primary key type in entity \x27B\x27."
      (by decide) (if_pos ⟨rfl, rfl⟩) (fun e k h => if_neg h) (by decide)⟩

def c3Gen : String → GenKind → Except String Unit := fun e k =>
  if e == "B" && (k == GenKind.createDto || k == GenKind.updateDto) then
    Except.error "Cannot find primary key type in entity \x27B\x27."
  else Except.ok ()

def c3Opts : RunOptions := ⟨true, true, true, true, 4⟩

def c3Files : List SrcFile :=
  [⟨[⟨some "A", ["Entity"], 1⟩, ⟨some "B", ["Entity"], 2⟩,
     ⟨some "C", ["Entity"], 3⟩]⟩]

/-- C3 counterexample: entity `B` fails TWO generator sub-tasks
(`create-dto` and `update-dto`), yet exactly one failure record exists —
the catch sits at the entity boundary, not the generator sub-task
boundary — carrying the entity and the failing sub-tasks' (shared)
message; neither the aggregate error message nor any line of the failure
report names a generator kind. -/
theorem c3_counterexample_entity_boundary_no_kind :
    c3Gen "B" GenKind.createDto
        = Except.error "Cannot find primary key type in entity \x27B\x27."
    ∧ c3Gen "B" GenKind.updateDto
        = Except.error "Cannot find primary key type in entity \x27B\x27."
    ∧ ((generateDtosInParallel c3Gen c3Opts c3Files).results.filter
        (fun r => !r.success)).length = 1
    ∧ (generateDtosInParallel c3Gen c3Opts c3Files).results.filter
        (fun r => !r.success)
        = [⟨false, "B", some "Cannot find primary key type in entity \x27B\x27."⟩]
    ∧ (generateDtosInParallel c3Gen c3Opts c3Files).thrown
        = some "Failed to process 1 entities"
    ∧ (requestedKinds c3Opts).all (fun k =>
        (generateDtosInParallel c3Gen c3Opts c3Files).reportLines.all
          (fun line => !(hasSubstr line.toList (kindLabel k).toList))
        && !(hasSubstr "Failed to process 1 entities".toList
              (kindLabel k).toList)) = true
    ∧ (generateDtosInParallel c3Gen c3Opts c3Files).saved = false := by
  refine ⟨rfl, rfl, ?_, ?_, ?_, ?_, ?_⟩ <;> decide

end Mdg


